import Mathlib

/-!
Verification of the transaction-extraction pipeline of the BotFinanzazs
repository (a bank-statement processing bot).  The Python sources are
shallowly embedded: pure functions become Lean functions, Python `float`
amounts are modelled as exact decimal rationals (`Dec`, a mantissa together
with a power-of-ten denominator; every value produced by the pipeline is a
finite decimal, so this is faithful), fallible code returns `Option`, and
caught exceptions become the value the `except` branch produces.  String
primitives (`strip`, `replace`, `split`, `lower`, slicing, substring test)
are embedded as explicit list-of-character programs mirroring the Python
semantics on the ASCII inputs the pipeline handles.
-/

/-! ## Characters and strings -/

/-- Whitespace characters stripped by Python `str.strip()` (ASCII range),
identified by code point: space, tab, newline, carriage return, vertical
tab, form feed. -/
def isPySpace (c : Char) : Bool :=
  c.toNat = 32 || c.toNat = 9 || c.toNat = 10 || c.toNat = 13 ||
    c.toNat = 11 || c.toNat = 12

/-- ASCII digit test (code points 48-57), as Python `str.isdigit` and the
`\d` class behave on the pipeline's inputs. -/
def pyIsDigit (c : Char) : Bool :=
  48 ≤ c.toNat && c.toNat ≤ 57

/-- Python `s.strip()`: drop leading and trailing whitespace. -/
def pyStrip (s : String) : String :=
  ⟨((s.toList.dropWhile isPySpace).reverse.dropWhile isPySpace).reverse⟩

/-- Python `s.replace(c, '')` for a single character: remove all occurrences. -/
def removeChar (s : String) (c : Char) : String :=
  ⟨s.toList.filter (fun x => x != c)⟩

/-- Python `s.replace(a, b)` for single characters: map all occurrences. -/
def replaceChar (s : String) (a b : Char) : String :=
  ⟨s.toList.map (fun x => if x = a then b else x)⟩

/-- Python `re.sub(r'[^\d.-]', '', s)`: keep only digits, `.` and `-`. -/
def keepNumChars (s : String) : String :=
  ⟨s.toList.filter (fun c => pyIsDigit c || c = '.' || c = '-')⟩

/-- ASCII lowercasing of one character (Python `str.lower()` on the ASCII
inputs handled by the pipeline). -/
def lowerChar (c : Char) : Char :=
  if 65 ≤ c.toNat ∧ c.toNat ≤ 90 then Char.ofNat (c.toNat + 32) else c

/-- Python `s.lower()` (ASCII). -/
def strToLower (s : String) : String :=
  ⟨s.toList.map lowerChar⟩

/-- Python `s[:n]`: first `n` characters. -/
def strTake (s : String) (n : Nat) : String :=
  ⟨s.toList.take n⟩

/-- Whether `pat` is a prefix of `l` (helper for the substring test). -/
def listIsPref : List Char → List Char → Bool
  | [], _ => true
  | _ :: _, [] => false
  | a :: as, b :: bs => a = b && listIsPref as bs

/-- Whether `pat` occurs as a contiguous run inside `l`. -/
def listIsSub (pat : List Char) (l : List Char) : Bool :=
  match l with
  | [] => pat.isEmpty
  | _ :: rest => listIsPref pat l || listIsSub pat rest

/-- Python `pat in s`: substring containment. -/
def strContains (s pat : String) : Bool :=
  listIsSub pat.toList s.toList

/-- Helper for Python `s.split(c)`: accumulate the current fragment. -/
def splitCharAux (c : Char) : List Char → List Char → List String
  | [], acc => [⟨acc.reverse⟩]
  | x :: xs, acc =>
    if x = c then ⟨acc.reverse⟩ :: splitCharAux c xs []
    else splitCharAux c xs (x :: acc)

/-- Python `s.split(c)` for a single-character separator. -/
def splitChar (s : String) (c : Char) : List String :=
  splitCharAux c s.toList []

/-- Numeric value of a big-endian digit string (helper for `int`/`float`). -/
def digitsToNat (cs : List Char) : Nat :=
  cs.foldl (fun a c => a * 10 + (c.toNat - 48)) 0

/-- A non-empty all-digit character list. -/
def digitsOk (cs : List Char) : Bool :=
  !cs.isEmpty && cs.all pyIsDigit

/-- Python `int(s)`: optional sign and digits, surrounding whitespace allowed. -/
def toIntPy? (s : String) : Option Int :=
  match (pyStrip s).toList with
  | '-' :: rest => if digitsOk rest then some (-(digitsToNat rest : Int)) else none
  | '+' :: rest => if digitsOk rest then some ((digitsToNat rest : Int)) else none
  | cs => if digitsOk cs then some ((digitsToNat cs : Int)) else none

/-! ## Exact decimal amounts

Python `float` amounts are modelled as exact decimals `m / 10^e`.  All
numbers flowing through the pipeline are finite decimals produced by
parsing decimal strings, so the model is exact.  Values are kept in the
canonical form in which either `e = 0` or the mantissa is not divisible
by ten. -/

structure Dec where
  m : Int
  e : Nat
deriving DecidableEq, Repr

/-- Canonical form of the decimal `m / 10^e`. -/
def normDec : Int → Nat → Dec
  | m, 0 => ⟨m, 0⟩
  | m, e+1 => if m % 10 = 0 then normDec (m / 10) e else ⟨m, e + 1⟩

def Dec.zero : Dec := ⟨0, 0⟩

def Dec.ofNat (n : Nat) : Dec := ⟨(n : Int), 0⟩

/-- Absolute value. -/
def Dec.abs (a : Dec) : Dec := ⟨|a.m|, a.e⟩

/-- Value comparison `a < b` (denominators are positive powers of ten). -/
def Dec.lt (a b : Dec) : Prop :=
  a.m * 10 ^ b.e < b.m * 10 ^ a.e

/-- Value comparison `a ≤ b`. -/
def Dec.le (a b : Dec) : Prop :=
  a.m * 10 ^ b.e ≤ b.m * 10 ^ a.e

instance (a b : Dec) : Decidable (Dec.lt a b) :=
  inferInstanceAs (Decidable (a.m * 10 ^ b.e < b.m * 10 ^ a.e))

instance (a b : Dec) : Decidable (Dec.le a b) :=
  inferInstanceAs (Decidable (a.m * 10 ^ b.e ≤ b.m * 10 ^ a.e))

/-- Exact addition, renormalized. -/
def Dec.add (a b : Dec) : Dec :=
  normDec (a.m * 10 ^ b.e + b.m * 10 ^ a.e) (a.e + b.e)

/-! ## Amount normalizer (`TransactionExtractor._parse_amount`) -/

/-- Python `float` literal syntax restricted to the characters that survive
the `[^\d.-]` filter: digits with at most one decimal point.  Returns the
exact decimal value. -/
def parseDecimal? (cs : List Char) : Option Dec :=
  let intPart := cs.takeWhile pyIsDigit
  let rest := cs.dropWhile pyIsDigit
  match rest with
  | [] => if intPart.isEmpty then none else some ⟨(digitsToNat intPart : Int), 0⟩
  | '.' :: frac =>
    if (!intPart.isEmpty || !frac.isEmpty) && frac.all pyIsDigit then
      some (normDec ((digitsToNat intPart : Int) * 10 ^ frac.length + (digitsToNat frac : Int))
        frac.length)
    else none
  | _ => none

/-- Python `float(s)` on the strings reaching it inside `_parse_amount`
(an optional sign followed by digits and at most one point). -/
def floatOfStringPy? (s : String) : Option Dec :=
  match s.toList with
  | '-' :: rest => (parseDecimal? rest).map (fun d => ⟨-d.m, d.e⟩)
  | '+' :: rest => parseDecimal? rest
  | cs => parseDecimal? cs

/-- `TransactionExtractor._parse_amount`: parse Chilean-format amounts
(`.` thousands separator, `,` decimal separator); currency symbol and
whitespace stripped; any unparseable input yields `0`; the result is the
absolute value. -/
def parse_amount (amount_str : String) : Dec :=
  if amount_str = "" ∨ amount_str = "nan" ∨ amount_str = "None" ∨
      amount_str = "none" ∨ amount_str = "NULL" then Dec.zero
  else
    let s1 := pyStrip (removeChar (removeChar amount_str '$') ' ')
    if s1 = "" ∨ s1 = "-" ∨ s1 = "." then Dec.zero
    else
      let s2 := removeChar s1 '.'
      let s3 := replaceChar s2 ',' '.'
      let s4 := keepNumChars s3
      if s4 = "" ∨ s4 = "-" then Dec.zero
      else
        match floatOfStringPy? s4 with
        | some v => v.abs
        | none => Dec.zero

/-! ## Date resolver (`TransactionExtractor._parse_date_banco_chile`) -/

/-- One calendar date as produced by Python `datetime.date`. -/
structure PyDate where
  year : Int
  month : Int
  day : Int
deriving DecidableEq, Repr

/-- Gregorian leap-year rule used by Python `datetime`. -/
def isLeapYear (y : Int) : Bool :=
  y % 4 = 0 && (y % 100 != 0 || y % 400 = 0)

def daysInMonth (y m : Int) : Int :=
  if m = 2 then (if isLeapYear y then 29 else 28)
  else if m = 4 ∨ m = 6 ∨ m = 9 ∨ m = 11 then 30
  else 31

/-- The validity check enforced by the Python `date(y, m, d)` constructor. -/
def validDate (y m d : Int) : Bool :=
  decide (1 ≤ y) && decide (y ≤ 9999) && decide (1 ≤ m) && decide (m ≤ 12) &&
    decide (1 ≤ d) && decide (d ≤ daysInMonth y m)

/-- Python `date(y, m, d)`: `none` models the `ValueError` of an
out-of-range component (always caught by the callers embedded here). -/
def date? (y m d : Int) : Option PyDate :=
  if validDate y m d then some ⟨y, m, d⟩ else none

/-- `TransactionExtractor._parse_date_banco_chile`: parse `DD/MM`,
`DD/MM/YY` or `DD/MM/YYYY`; two-digit years below 50 map to 2000+, others
to 1900+; malformed input yields `none`. -/
def parse_date_banco_chile (date_str : String) (default_year : Int) : Option PyDate :=
  if date_str = "" ∨ date_str = "nan" then none
  else
    match splitChar (pyStrip date_str) '/' with
    | [p1, p2] =>
      match toIntPy? p1, toIntPy? p2 with
      | some day, some month => date? default_year month day
      | _, _ => none
    | [p1, p2, p3] =>
      match toIntPy? p1, toIntPy? p2, toIntPy? p3 with
      | some day, some month, some year =>
        date? (if year < 100 then (if year < 50 then 2000 + year else 1900 + year) else year)
          month day
      | _, _, _ => none
    | _ => none

/-- `TransactionExtractor.__init__` sets `self.current_year = 2025`. -/
def currentYear : Int := 2025

/-! ## Data model (`models.py`) -/

/-- `models.Transaction`.  The Python dataclass defaults `category` to
`"Otros"`; every construction site in the embedded code passes that
default explicitly. -/
structure Transaction where
  date : PyDate
  description : String
  amount : Dec
  type : String
  category : String
deriving DecidableEq, Repr

/-- `models.Statement`. -/
structure Statement where
  period : String
  transactions : List Transaction
  total_income : Dec
  total_expense : Dec
deriving DecidableEq, Repr

/-! ## Category classifier (`config.CATEGORIES`, `categorizer.Categorizer`) -/

/-- `config.CATEGORIES` in declaration order (Python dicts preserve
insertion order). -/
def CATEGORIES : List (String × List String) := [
  ("Alimentación", ["supermercado", "mercado", "comida", "market", "fruteria"]),
  ("Transporte", ["uber", "cabify", "gasolinera", "peaje", "metro", "bus"]),
  ("Vivienda", ["alquiler", "hipoteca", "mantenimiento", "luz", "agua", "gas"]),
  ("Servicios básicos", ["internet", "telefono", "claro", "movistar", "entel"]),
  ("Salud", ["farmacia", "medico", "hospital", "clinica", "doctor"]),
  ("Educación", ["universidad", "curso", "colegio", "udemy", "platzi"]),
  ("Entretenimiento", ["cine", "netflix", "spotify", "juego", "steam"]),
  ("Compras", ["amazon", "mercadolibre", "falabella", "ripley", "zara"]),
  ("Suscripciones", ["prime", "hbo", "disney", "apple"]),
  ("Restaurantes", ["restaurante", "dominos", "starbucks", "mcdonalds", "burger"]),
  ("Transferencias", ["transferencia", "traspaso"]),
  ("Impuestos y comisiones", ["comision", "impuesto", "iva", "interes"]),
  ("Ingresos", ["sueldo", "salario", "deposito", "abono"]),
  ("Otros", [])]

/-- The keyword loop of `Categorizer.categorize`: first rule whose keyword
set contains a substring of the lowercased description wins. -/
def categorizeGo (d : String) : List (String × List String) → String
  | [] => "Otros"
  | (cat, kws) :: rest =>
    if kws.any (fun k => strContains d k) then cat else categorizeGo d rest

/-- `Categorizer.categorize`.  The `amount` argument is accepted (as in the
source) but never used. -/
def categorize (description : String) (amount : Dec) : String :=
  categorizeGo (strToLower description) CATEGORIES

/-! ## Text-based extractor
(`TransactionExtractor._extract_from_text_banco_chile`) -/

/-- Transaction-indicator keywords of the Banco Chile text parser. -/
def txKeywords : List String :=
  ["PAGO:", "TRANSFERENCIA", "TRASPASO", "ABONO", "AVANCE", "AMORTIZACION",
   "PRIMA", "IMPUESTO", "INTERESES", "GIRO"]

/-- Phrases marking an incoming amount (credit). -/
def incomePhrases : List String := ["TRANSFERENCIA DESDE", "TRASPASO DE:", "ABONO"]

/-- Branch-code placeholder lines skipped during the amount lookahead. -/
def sucursalCodes : List String := ["CENTRAL", "NTRAL", "ERNET", "INTERNET"]

/-- Header/boilerplate lines skipped by the line scanner. -/
def textSkipLine (line : String) : Bool :=
  line = "" || strContains line "DETALLE DE TRANSACCION" ||
    strContains line "SUCURSAL" || strContains line "MONTO CHEQUES"

/-- The bounded lookahead of the text parser: first line in the window
that is not a branch-code placeholder and parses to a strictly positive
amount. -/
def findAmountInWindow : List String → Option Dec
  | [] => none
  | l :: rest =>
    let next_line := pyStrip l
    if sucursalCodes.contains next_line then findAmountInWindow rest
    else
      let amount := parse_amount next_line
      if Dec.lt Dec.zero amount then some amount
      else findAmountInWindow rest

/-- Emission step for one candidate line: pair it with the first positive
amount in the lookahead window; direction comes from the income phrases;
the stored description is truncated to 100 characters; the date is the
fixed placeholder `date(current_year, 12, 1)`. -/
def lineTransactions (line : String) (window : List String) : List Transaction :=
  match findAmountInWindow window with
  | none => []
  | some amount =>
    if incomePhrases.any (fun w => strContains line w) then
      [⟨⟨currentYear, 12, 1⟩, strTake line 100, amount, "ingreso", "Otros"⟩]
    else
      [⟨⟨currentYear, 12, 1⟩, strTake line 100, amount, "egreso", "Otros"⟩]

/-- The `while i < len(lines)` scan: the index only ever advances by one,
so it is structural recursion on the line list; the lookahead window is
`lines[i+1 : i+6]`, that is the next five lines. -/
def extractTextGo : List String → List Transaction
  | [] => []
  | l :: rest =>
    let line := pyStrip l
    if textSkipLine line then extractTextGo rest
    else if txKeywords.any (fun k => strContains line k) then
      lineTransactions line (rest.take 5) ++ extractTextGo rest
    else extractTextGo rest

/-- `TransactionExtractor._extract_from_text_banco_chile`. -/
def extract_from_text_banco_chile (text : String) : List Transaction :=
  extractTextGo (splitChar text '\n')

/-! ## Table-based extractor
(`TransactionExtractor._extract_from_tables_pandas`) -/

/-- One table record of the raw parsed content: the cell grid as handed
over by the PDF collaborator (`None` cells still possible, the extractor
cleans them to `""`). -/
structure TableInfo where
  data : List (List (Option String))
deriving DecidableEq, Repr

/-- `str(cell) if cell is not None else ""`. -/
def cleanCell (c : Option String) : String :=
  match c with
  | some s => s
  | none => ""

/-- Python `' '.join(items)`. -/
def joinSpace : List String → String
  | [] => ""
  | [x] => x
  | x :: xs => x ++ " " ++ joinSpace xs

/-- Keywords locating the header row. -/
def headerKeywords : List String := ["detalle", "cargo", "abono", "dia/mes", "fecha"]

/-- `' '.join(str(cell).lower() for cell in row if cell)`. -/
def rowJoinedText (row : List String) : String :=
  joinSpace ((row.filter (fun c => c ≠ "")).map strToLower)

/-- `TransactionExtractor._find_header_row`: index of the first row whose
joined lowercased text contains a header keyword. -/
def find_header_row (rows : List (List String)) : Option Nat :=
  rows.findIdx? (fun row => headerKeywords.any (fun k => strContains (rowJoinedText row) k))

/-- `TransactionExtractor._find_column`: first column whose lowercased,
stripped name contains one of the keywords (by index). -/
def find_column (cols : List String) (keywords : List String) : Option Nat :=
  cols.findIdx? (fun col => keywords.any (fun k => strContains (pyStrip (strToLower col)) k))

/-- Cell access on one row; a column index beyond a ragged row behaves
like an empty cell (the pandas padding value leads to the same skip or
zero-amount outcome on every path of the row loop). -/
def cellAt (row : List String) (i : Nat) : String :=
  row.getD i ""

/-- Words marking summary / carry-forward rows to skip. -/
def summaryWords : List String := ["total", "saldo final", "saldo anterior", "retencion"]

/-- `if cargo_col and row[cargo_col]: cargo = self._parse_amount(...)`:
an absent column or an empty (falsy) cell leaves the amount at `0.0`. -/
def cellAmount (row : List String) : Option Nat → Dec
  | some i => if cellAt row i ≠ "" then parse_amount (cellAt row i) else Dec.zero
  | none => Dec.zero

/-- The body of the per-row loop of `_extract_from_tables_pandas`: skip
empty-date, summary and empty-description rows, parse the date, then emit
an expense for a positive debit and, independently, an income for a
positive credit. -/
def rowTransactions (fechaIdx detalleIdx : Nat) (cargoIdx abonoIdx : Option Nat)
    (row : List String) : List Transaction :=
  if pyStrip (cellAt row fechaIdx) = "" then []
  else
    let detalle_text := strToLower (cellAt row detalleIdx)
    if summaryWords.any (fun w => strContains detalle_text w) then []
    else
      match parse_date_banco_chile (pyStrip (cellAt row fechaIdx)) currentYear with
      | none => []
      | some fecha =>
        let descripcion := pyStrip (cellAt row detalleIdx)
        if descripcion = "" ∨ descripcion = "nan" then []
        else
          let cargo := cellAmount row cargoIdx
          let abono := cellAmount row abonoIdx
          (if Dec.lt Dec.zero cargo then
            [⟨fecha, descripcion, cargo, "egreso", "Otros"⟩] else []) ++
          (if Dec.lt Dec.zero abono then
            [⟨fecha, descripcion, abono, "ingreso", "Otros"⟩] else [])

/-- Number of columns pandas assigns to the cell grid. -/
def tableNCols (rows : List (List String)) : Nat :=
  rows.foldl (fun a r => max a r.length) 0

/-- Positional fallback column names used when no header row is found. -/
def genericCols : List String :=
  ["FECHA", "DETALLE", "SUCURSAL", "NDOC", "CARGO", "ABONO", "SALDO"]

/-- Processing of one table: clean cells, locate the header (or fall back
to positional names when the table is wide enough), resolve the four
logical columns, then run the row loop below the header.  A table whose
date or description column cannot be identified contributes nothing. -/
def tableTransactions (table : List (List (Option String))) : List Transaction :=
  if table.length < 2 then []
  else
    let rows := table.map (fun r => r.map cleanCell)
    let colsData :=
      match find_header_row rows with
      | some h => (rows.getD h [], rows.drop (h + 1))
      | none =>
        if 6 ≤ tableNCols rows then (genericCols.take (tableNCols rows), rows)
        else ([], [])
    match find_column colsData.1 ["fecha", "dia", "dia/mes"],
      find_column colsData.1 ["detalle", "descripcion", "transaccion"] with
    | some fechaIdx, some detalleIdx =>
      let cargoIdx := find_column colsData.1 ["cargo", "cheques", "debito", "monto cheques"]
      let abonoIdx := find_column colsData.1 ["abono", "deposito", "credito", "monto depositos"]
      colsData.2.flatMap (rowTransactions fechaIdx detalleIdx cargoIdx abonoIdx)
    | _, _ => []

/-- `TransactionExtractor._extract_from_tables_pandas`. -/
def extract_from_tables_pandas (tables : List TableInfo) : List Transaction :=
  tables.flatMap (fun ti => tableTransactions ti.data)

/-! ## AI-assisted extractor (`ai_parser.AIParser.parse_transactions`)

The external language-model call is the only non-embeddable step: its
response is treated as an oracle value.  The per-element conversion loop
(lines 57-76 of `ai_parser.py`) is embedded exactly: each JSON element is
converted independently, and an element whose date does not parse or
construct is discarded while the rest survive.  An element is modelled by
the four fields the loop reads, with `monto` a JSON number. -/

structure AIRecord where
  fecha : String
  descripcion : String
  monto : Dec
  tipo : String
deriving DecidableEq, Repr

/-- `t['fecha'].split('-')` followed by `date(int(p0), int(p1), int(p2))`;
fewer than three fragments raise an `IndexError`, extra fragments are
ignored, and any failure discards the element. -/
def aiParseDate? (s : String) : Option PyDate :=
  match splitChar s '-' with
  | p0 :: p1 :: p2 :: _ =>
    match toIntPy? p0, toIntPy? p1, toIntPy? p2 with
    | some y, some mo, some d => date? y mo d
    | _, _, _ => none
  | _ => none

/-- The conversion loop of `AIParser.parse_transactions`: `amount` and
`type` are copied verbatim from the element (`float(t['monto'])`,
`t['tipo']`), with no range or direction validation. -/
def aiConvert (recs : List AIRecord) : List Transaction :=
  recs.filterMap (fun t =>
    (aiParseDate? t.fecha).map (fun dt =>
      ⟨dt, t.descripcion, t.monto, t.tipo, "Otros"⟩))

/-! ## Extraction orchestrator (`TransactionExtractor.extract_transactions`) -/

/-- The raw parsed content handed to the orchestrator: `parsed_data["text"]`
and `parsed_data["tables"]` (a missing or empty value is falsy either way). -/
structure ParsedData where
  text : String
  tables : List TableInfo

/-- Result of the cascade together with which tiers were entered
(call-count instrumentation: each flag is true iff the corresponding
extractor was invoked). -/
structure CascadeResult where
  result : List Transaction
  aiInvoked : Bool
  textInvoked : Bool
  tableInvoked : Bool

/-- `TransactionExtractor.extract_transactions`, generic in the three tier
implementations.  The AI tier returns `none` when it raises (missing
credentials); the `except` branch keeps `transactions` empty.  Each later
tier runs only when the running result is still empty and its input is
non-empty (truthy). -/
def extractCascade (aiF : String → Option (List Transaction))
    (textF : String → List Transaction)
    (tableF : List TableInfo → List Transaction)
    (pd : ParsedData) : CascadeResult :=
  let t1 := if pd.text ≠ "" then (aiF pd.text).getD [] else []
  let t2 := if t1 = [] ∧ pd.text ≠ "" then textF pd.text else t1
  let t3 := if t2 = [] ∧ pd.tables ≠ [] then tableF pd.tables else t2
  ⟨t3, decide (pd.text ≠ ""), decide (t1 = [] ∧ pd.text ≠ ""),
    decide (t2 = [] ∧ pd.tables ≠ [])⟩

/-- The orchestrator instantiated with the pipeline's real tiers.
`aiResult` is the oracle outcome of the language-model call: `none` when
the call raises, otherwise the JSON elements recovered from the response. -/
def extract_transactions (aiResult : Option (List AIRecord)) (pd : ParsedData) :
    List Transaction :=
  (extractCascade (fun _ => aiResult.map aiConvert)
    extract_from_text_banco_chile extract_from_tables_pandas pd).result

/-! ## Statement assembly (`main.FinancialBot.process_file`, steps 3-4) -/

/-- `t.category = self.categorizer.categorize(t.description, t.amount)`:
the in-place category assignment of the loop in `process_file`. -/
def updTx (t : Transaction) : Transaction :=
  ⟨t.date, t.description, t.amount, t.type, categorize t.description t.amount⟩

/-- One iteration of the loop: categorize the transaction in place, then
add its amount to the matching running total. -/
def processStep (acc : List Transaction × Dec × Dec) (t : Transaction) :
    List Transaction × Dec × Dec :=
  let t2 := updTx t
  if t2.type = "ingreso" then (acc.1 ++ [t2], Dec.add acc.2.1 t2.amount, acc.2.2)
  else (acc.1 ++ [t2], acc.2.1, Dec.add acc.2.2 t2.amount)

/-- The categorize-and-total loop of `process_file`: every transaction's
category is assigned from its (stored) description, `total_income`
accumulates `type == 'ingreso'` amounts and the `else` branch accumulates
everything else into `total_expense`. -/
def processTransactions (transactions : List Transaction) :
    List Transaction × Dec × Dec :=
  transactions.foldl processStep ([], Dec.zero, Dec.zero)

/-- Step 4 of `process_file`: build the `Statement` from the categorized
transactions and the two accumulated totals. -/
def mkStatement (period : String) (transactions : List Transaction) : Statement :=
  let r := processTransactions transactions
  ⟨period, r.1, r.2.1, r.2.2⟩

/-- Sum of the amounts of a transaction list (left fold, as the source
accumulates). -/
def sumAmounts (l : List Transaction) : Dec :=
  l.foldl (fun a t => Dec.add a t.amount) Dec.zero

/-! ## Canonical amount rendering

Modelled from the spec: the repository renders amounts only for CSV
display; the canonical textual form named by the idempotence property
(§8: "idempotent on its own canonical output format") is the Chilean
format `_parse_amount` documents for itself, digits with `,` as the
decimal separator.  `renderAmount` produces that form for the canonical
decimals `parse_amount` returns. -/

/-- Big-endian decimal digits of `n` (`fuel ≥ n` suffices; empty for 0). -/
def natToDigits : Nat → Nat → List Char
  | 0, _ => []
  | fuel + 1, n => if n = 0 then [] else natToDigits fuel (n / 10) ++ [Nat.digitChar (n % 10)]

/-- Decimal rendering of a natural number. -/
def natStr (n : Nat) : String :=
  if n = 0 then "0" else ⟨natToDigits (n + 1) n⟩

/-- Exactly `k` fractional digits of `r < 10^k`, left-padded with zeros. -/
def fracStr (r k : Nat) : String :=
  let cs := natToDigits (r + 1) r
  ⟨List.replicate (k - cs.length) '0' ++ cs⟩

/-- Modelled from the spec: canonical Chilean textual form of an amount
(missing from the sources, which render amounts only for CSV display):
the integer part in plain digits and, when fractional digits exist, a
`,` followed by them. -/
def renderAmount (d : Dec) : String :=
  let n := d.m.natAbs
  if d.e = 0 then natStr n
  else natStr (n / 10 ^ d.e) ++ "," ++ fracStr (n % 10 ^ d.e) d.e

/-! ## Basic lemmas about the string primitives -/

theorem listFilterEqSelf {p : Char → Bool} {l : List Char}
    (h : ∀ c ∈ l, p c = true) : l.filter p = l :=
  List.filter_eq_self.mpr h

theorem listMapFixOfAll {f : Char → Char} {l : List Char}
    (h : ∀ c ∈ l, f c = c) : l.map f = l := by
  induction l with
  | nil => rfl
  | cons c t ih =>
    simp only [List.map_cons, h c (List.mem_cons_self c t)]
    rw [ih (fun x hx => h x (List.mem_cons_of_mem c hx))]

theorem listDropWhileEqSelf {p : Char → Bool} {l : List Char}
    (h : ∀ c ∈ l, p c = false) : l.dropWhile p = l := by
  cases l with
  | nil => rfl
  | cons c t => simp [List.dropWhile_cons, h c (List.mem_cons_self c t)]

theorem pyStripEqSelf {l : List Char}
    (h : ∀ c ∈ l, isPySpace c = false) : pyStrip ⟨l⟩ = ⟨l⟩ := by
  unfold pyStrip
  have h1 : String.toList ⟨l⟩ = l := rfl
  rw [h1, listDropWhileEqSelf h,
    listDropWhileEqSelf (fun c hc => h c (List.mem_reverse.mp hc)), List.reverse_reverse]

theorem digitNotSpace {c : Char} (h : pyIsDigit c = true) : isPySpace c = false := by
  simp only [pyIsDigit, Bool.and_eq_true, decide_eq_true_eq] at h
  simp only [isPySpace, Bool.or_eq_false_iff, decide_eq_false_iff_not]
  omega

theorem digitBne {c d : Char} (h : pyIsDigit c = true) (hd : pyIsDigit d = false) :
    (c != d) = true := by
  simp only [bne_iff_ne, ne_eq]
  intro he
  rw [he, hd] at h
  exact Bool.false_ne_true h

theorem digitNeChar {c d : Char} (h : pyIsDigit c = true) (hd : pyIsDigit d = false) :
    c ≠ d := by
  intro he
  rw [he, hd] at h
  exact Bool.false_ne_true h

/-! ## Basic lemmas about decimals -/

theorem decZeroLe {d : Dec} (h : 0 ≤ d.m) : Dec.le Dec.zero d := by
  simp only [Dec.le, Dec.zero, pow_zero, mul_one, zero_mul]
  exact h

theorem decZeroLt {d : Dec} : Dec.lt Dec.zero d ↔ 0 < d.m := by
  simp [Dec.lt, Dec.zero]

theorem decLeOfLt {d : Dec} (h : Dec.lt Dec.zero d) : Dec.le Dec.zero d :=
  decZeroLe (le_of_lt (decZeroLt.mp h))

theorem normDecNonneg {m : Int} {e : Nat} (h : 0 ≤ m) : 0 ≤ (normDec m e).m := by
  induction e generalizing m with
  | zero => simpa [normDec]
  | succ e ih =>
    unfold normDec
    split
    · exact ih (Int.ediv_nonneg h (by norm_num))
    · simpa

theorem normDecNormalized (m : Int) (e : Nat) :
    (normDec m e).e = 0 ∨ ¬(normDec m e).m % 10 = 0 := by
  induction e generalizing m with
  | zero => left; rfl
  | succ e ih =>
    unfold normDec
    split
    · exact ih (m / 10)
    · right; simpa using (by assumption : ¬m % 10 = 0)

theorem decAbsOfNonneg {d : Dec} (h : 0 ≤ d.m) : Dec.abs d = d := by
  unfold Dec.abs
  rw [abs_of_nonneg h]

/-! ## Structure of `parse_amount` results -/

theorem parseDecimalNonneg {cs : List Char} {d : Dec}
    (h : parseDecimal? cs = some d) : 0 ≤ d.m := by
  unfold parseDecimal? at h
  dsimp only at h
  split at h
  · split at h
    · exact absurd h (by simp)
    · simp only [Option.some_inj] at h
      rw [← h]
      exact Int.ofNat_nonneg _
  · split at h
    · simp only [Option.some_inj] at h
      rw [← h]
      exact normDecNonneg (by positivity)
    · exact absurd h (by simp)
  · exact absurd h (by simp)

theorem parseDecimalNormalized {cs : List Char} {d : Dec}
    (h : parseDecimal? cs = some d) : d.e = 0 ∨ ¬d.m % 10 = 0 := by
  unfold parseDecimal? at h
  dsimp only at h
  split at h
  · split at h
    · exact absurd h (by simp)
    · simp only [Option.some_inj] at h
      rw [← h]
      left; rfl
  · split at h
    · simp only [Option.some_inj] at h
      rw [← h]
      exact normDecNormalized _ _
    · exact absurd h (by simp)
  · exact absurd h (by simp)

theorem parseAmountNonneg (s : String) : 0 ≤ (parse_amount s).m := by
  unfold parse_amount
  dsimp only
  split
  · exact le_refl 0
  · split
    · exact le_refl 0
    · split
      · exact le_refl 0
      · split
        · simp only [Dec.abs]
          exact abs_nonneg _
        · exact le_refl 0

theorem floatOfStringNormalized {s : String} {d : Dec}
    (h : floatOfStringPy? s = some d) : d.e = 0 ∨ ¬d.m % 10 = 0 := by
  unfold floatOfStringPy? at h
  split at h
  · simp only [Option.map_eq_some'] at h
    obtain ⟨v, hv, he⟩ := h
    rcases parseDecimalNormalized hv with h0 | h0
    · left; rw [← he]; exact h0
    · right
      rw [← he]
      simp only
      intro hc
      exact h0 (Int.dvd_iff_emod_eq_zero.mp
        (Int.dvd_neg.mp (Int.dvd_iff_emod_eq_zero.mpr hc)))
  · exact parseDecimalNormalized h
  · exact parseDecimalNormalized h

theorem parseAmountNormalized (s : String) :
    (parse_amount s).e = 0 ∨ ¬(parse_amount s).m % 10 = 0 := by
  unfold parse_amount
  dsimp only
  split
  · left; rfl
  · split
    · left; rfl
    · split
      · left; rfl
      · split
        · rename_i v hv
          rcases floatOfStringNormalized hv with h0 | h0
          · left; exact h0
          · right
            simp only [Dec.abs]
            intro hc
            exact h0 (Int.dvd_iff_emod_eq_zero.mp
              ((dvd_abs _ _).mp (Int.dvd_iff_emod_eq_zero.mpr hc)))
        · left; rfl

/-! ## Invariants of the three extraction tiers -/

theorem findAmountPos : ∀ {w : List String} {a : Dec},
    findAmountInWindow w = some a → Dec.lt Dec.zero a := by
  intro w
  induction w with
  | nil => intro a h; exact absurd h (by simp [findAmountInWindow])
  | cons l rest ih =>
    intro a h
    unfold findAmountInWindow at h
    dsimp only at h
    split at h
    · exact ih h
    · split at h
      · rename_i hpos
        rw [Option.some_inj] at h
        rw [← h]
        exact hpos
      · exact ih h

/-- Everything a transaction emitted for one candidate line satisfies:
its amount is the first positive amount of the window, its description is
the line truncated to 100 characters, its date is the placeholder, its
direction is decided by the income phrases, its category is the default. -/
theorem lineTransactionsCases {line : String} {w : List String} {t : Transaction}
    (h : t ∈ lineTransactions line w) :
    ∃ a, findAmountInWindow w = some a ∧ t.amount = a ∧
      t.description = strTake line 100 ∧ t.date = ⟨currentYear, 12, 1⟩ ∧
      (if incomePhrases.any (fun p => strContains line p) then t.type = "ingreso"
        else t.type = "egreso") ∧ t.category = "Otros" := by
  unfold lineTransactions at h
  split at h
  · exact absurd h (by simp)
  · rename_i a ha
    refine ⟨a, ha, ?_⟩
    split at h <;> rename_i hph <;> simp only [List.mem_singleton] at h <;>
      subst h <;> simp [hph]

theorem extractTextGoInv : ∀ (lines : List String) (t : Transaction),
    t ∈ extractTextGo lines →
    Dec.le Dec.zero t.amount ∧ (t.type = "ingreso" ∨ t.type = "egreso") := by
  intro lines
  induction lines with
  | nil => intro t h; exact absurd h (by simp [extractTextGo])
  | cons l rest ih =>
    intro t h
    unfold extractTextGo at h
    dsimp only at h
    split at h
    · exact ih t h
    · split at h
      · rcases List.mem_append.mp h with hm | hm
        · obtain ⟨a, ha, ham, _, _, hty, _⟩ := lineTransactionsCases hm
          constructor
          · rw [ham]; exact decLeOfLt (findAmountPos ha)
          · split at hty
            · left; exact hty
            · right; exact hty
        · exact ih t hm
      · exact ih t h

theorem textInv (text : String) (t : Transaction)
    (h : t ∈ extract_from_text_banco_chile text) :
    Dec.le Dec.zero t.amount ∧ (t.type = "ingreso" ∨ t.type = "egreso") :=
  extractTextGoInv _ t h

theorem rowTransactionsCases {fi di : Nat} {ci ai : Option Nat}
    {row : List String} {t : Transaction}
    (h : t ∈ rowTransactions fi di ci ai row) :
    (t.amount = cellAmount row ci ∧ Dec.lt Dec.zero t.amount ∧ t.type = "egreso" ∧
      t.description = pyStrip (cellAt row di) ∧ t.category = "Otros") ∨
    (t.amount = cellAmount row ai ∧ Dec.lt Dec.zero t.amount ∧ t.type = "ingreso" ∧
      t.description = pyStrip (cellAt row di) ∧ t.category = "Otros") := by
  unfold rowTransactions at h
  dsimp only at h
  split at h
  · exact absurd h (by simp)
  · split at h
    · exact absurd h (by simp)
    · split at h
      · exact absurd h (by simp)
      · split at h
        · exact absurd h (by simp)
        · rcases List.mem_append.mp h with hm | hm
          · left
            split at hm
            · rename_i hpos
              simp only [List.mem_singleton] at hm
              subst hm
              exact ⟨rfl, hpos, rfl, rfl, rfl⟩
            · exact absurd hm (by simp)
          · right
            split at hm
            · rename_i hpos
              simp only [List.mem_singleton] at hm
              subst hm
              exact ⟨rfl, hpos, rfl, rfl, rfl⟩
            · exact absurd hm (by simp)

theorem tablesInv (tables : List TableInfo) (t : Transaction)
    (h : t ∈ extract_from_tables_pandas tables) :
    Dec.le Dec.zero t.amount ∧ (t.type = "ingreso" ∨ t.type = "egreso") := by
  unfold extract_from_tables_pandas at h
  rw [List.mem_flatMap] at h
  obtain ⟨ti, _, hm⟩ := h
  unfold tableTransactions at hm
  split at hm
  · exact absurd hm (by simp)
  · dsimp only at hm
    split at hm
    · rename_i fi di hfd
      rw [List.mem_flatMap] at hm
      obtain ⟨row, _, hr⟩ := hm
      rcases rowTransactionsCases hr with ⟨_, hpos, hty, _⟩ | ⟨_, hpos, hty, _⟩
      · exact ⟨decLeOfLt hpos, Or.inr hty⟩
      · exact ⟨decLeOfLt hpos, Or.inl hty⟩
    · exact absurd hm (by simp)

theorem aiConvertMem {recs : List AIRecord} {t : Transaction}
    (h : t ∈ aiConvert recs) :
    ∃ r ∈ recs, t.amount = r.monto ∧ t.type = r.tipo := by
  unfold aiConvert at h
  rw [List.mem_filterMap] at h
  obtain ⟨r, hr, hmap⟩ := h
  rw [Option.map_eq_some'] at hmap
  obtain ⟨dt, _, ht⟩ := hmap
  exact ⟨r, hr, by rw [← ht], by rw [← ht]⟩

/-- Every transaction the orchestrator returns comes from one of the three
tiers (with the AI tier contributing only when the oracle returned data). -/
theorem extractMem {aiResult : Option (List AIRecord)} {pd : ParsedData}
    {t : Transaction} (h : t ∈ extract_transactions aiResult pd) :
    (∃ recs, aiResult = some recs ∧ t ∈ aiConvert recs) ∨
    t ∈ extract_from_text_banco_chile pd.text ∨
    t ∈ extract_from_tables_pandas pd.tables := by
  unfold extract_transactions extractCascade at h
  dsimp only at h
  by_cases htext : pd.text = ""
  · simp only [htext, ne_eq, not_true_eq_false, if_false, and_false, false_and,
      if_true, true_and, and_true, not_false_eq_true] at h
    split at h
    · right; right; exact h
    · exact absurd h (by simp)
  · rcases aiResult with _ | recs
    · simp only [Option.map_none', Option.getD_none, ne_eq, htext,
        not_false_eq_true, if_true, and_self] at h
      split at h
      · right; right; exact h
      · right; left; exact h
    · simp only [Option.map_some', Option.getD_some, ne_eq, htext, not_false_eq_true,
        and_true, if_true] at h
      by_cases hai : aiConvert recs = []
      · simp only [hai, if_true, if_pos rfl] at h
        split at h
        · right; right; exact h
        · right; left; exact h
      · simp only [hai, if_false, if_neg hai] at h
        split at h
        · right; right; exact h
        · left; exact ⟨recs, rfl, h⟩

/-! ## Claim C6 -/

/-- C6: `parse_amount` is total and never raises (it is a total function
by construction, with every Python-exception path embedded as the `0`
result): for every input string it returns a non-negative number, and
unparseable input — empty strings, a bare dash, a lone separator,
symbol-only input, malformed text — yields `0` rather than an error. -/
theorem C6_parse_amount_total_nonneg :
    (∀ s : String, Dec.le Dec.zero (parse_amount s)) ∧
    parse_amount "" = Dec.zero ∧ parse_amount "-" = Dec.zero ∧
    parse_amount "," = Dec.zero ∧ parse_amount "." = Dec.zero ∧
    parse_amount "$" = Dec.zero ∧ parse_amount "$ " = Dec.zero ∧
    parse_amount "garbage-text" = Dec.zero :=
  ⟨fun s => decZeroLe (parseAmountNonneg s), by decide, by decide, by decide,
    by decide, by decide, by decide, by decide⟩

/-! ## Claim C2 -/

/-- C2 counterexample: the AI-assisted tier copies `monto` and `tipo`
verbatim from the model's JSON elements with no validation
(`ai_parser.py` lines 65-70), so a response element with a negative
amount and an unknown direction tag flows through the pipeline unchanged,
violating both halves of the claimed invariant. -/
theorem C2_counterexample :
    extract_transactions (some [⟨"2025-01-02", "pago", ⟨-5, 0⟩, "transfer"⟩])
        ⟨"cartola", []⟩ =
      [⟨⟨2025, 1, 2⟩, "pago", ⟨-5, 0⟩, "transfer", "Otros"⟩] ∧
    ¬Dec.le Dec.zero (⟨-5, 0⟩ : Dec) ∧
    ("transfer" ≠ "ingreso" ∧ "transfer" ≠ "egreso") := by
  refine ⟨by decide, by decide, by decide, by decide⟩

/-- C2 (amended): transactions produced by the text-based and table-based
tiers always satisfy `amount >= 0` and `direction ∈ {ingreso, egreso}`;
transactions of the AI-assisted tier copy `monto`/`tipo` verbatim, so the
invariant holds for the whole pipeline exactly when every element of the
model's response satisfies it. -/
theorem C2_amended_invariant (aiResult : Option (List AIRecord)) (pd : ParsedData)
    (hai : ∀ recs, aiResult = some recs → ∀ r ∈ recs,
      Dec.le Dec.zero r.monto ∧ (r.tipo = "ingreso" ∨ r.tipo = "egreso")) :
    ∀ t ∈ extract_transactions aiResult pd,
      Dec.le Dec.zero t.amount ∧ (t.type = "ingreso" ∨ t.type = "egreso") := by
  intro t ht
  rcases extractMem ht with ⟨recs, hrec, hm⟩ | hm | hm
  · obtain ⟨r, hr, ham, hty⟩ := aiConvertMem hm
    obtain ⟨h1, h2⟩ := hai recs hrec r hr
    rw [ham, hty]
    exact ⟨h1, h2⟩
  · exact textInv _ _ hm
  · exact tablesInv _ _ hm

/-- Witness for C2 (amended) at a concrete well-formed AI response. -/
theorem C2_amended_invariant_witness :
    Dec.le Dec.zero
        (Transaction.mk ⟨2025, 1, 2⟩ "pago" ⟨7, 0⟩ "ingreso" "Otros").amount ∧
      ((Transaction.mk ⟨2025, 1, 2⟩ "pago" ⟨7, 0⟩ "ingreso" "Otros").type = "ingreso" ∨
        (Transaction.mk ⟨2025, 1, 2⟩ "pago" ⟨7, 0⟩ "ingreso" "Otros").type = "egreso") :=
  C2_amended_invariant (some [⟨"2025-01-02", "pago", ⟨7, 0⟩, "ingreso"⟩]) ⟨"cartola", []⟩
    (by
      intro recs h r hr
      rw [Option.some_inj] at h
      subst h
      rw [List.mem_singleton] at hr
      subst hr
      exact ⟨by decide, Or.inl rfl⟩)
    (Transaction.mk ⟨2025, 1, 2⟩ "pago" ⟨7, 0⟩ "ingreso" "Otros") (by decide)

/-! ## Claim C1 -/

/-- C1: the orchestrator is a strict priority cascade with short-circuit:
the AI tier is entered iff the text is non-empty; the text tier is entered
iff the AI tier yielded zero transactions and the text is non-empty; the
table tier is entered iff both earlier tiers yielded zero transactions and
the table list is non-empty; a non-empty AI yield is returned as-is with
the two later tiers never invoked; and when all tiers yield nothing the
result is the empty list, not an error. -/
theorem C1_cascade_short_circuit (aiF : String → Option (List Transaction))
    (textF : String → List Transaction) (tableF : List TableInfo → List Transaction)
    (pd : ParsedData) :
    ((extractCascade aiF textF tableF pd).aiInvoked = true ↔ pd.text ≠ "") ∧
    ((extractCascade aiF textF tableF pd).textInvoked = true ↔
      pd.text ≠ "" ∧ (aiF pd.text).getD [] = []) ∧
    ((extractCascade aiF textF tableF pd).tableInvoked = true ↔
      pd.tables ≠ [] ∧ (if pd.text ≠ "" then (aiF pd.text).getD [] else []) = [] ∧
        (pd.text ≠ "" → textF pd.text = [])) ∧
    (pd.text ≠ "" → (aiF pd.text).getD [] ≠ [] →
      (extractCascade aiF textF tableF pd).textInvoked = false ∧
      (extractCascade aiF textF tableF pd).tableInvoked = false ∧
      (extractCascade aiF textF tableF pd).result = (aiF pd.text).getD []) ∧
    ((if pd.text ≠ "" then (aiF pd.text).getD [] else []) = [] →
      (pd.text ≠ "" → textF pd.text = []) →
      (pd.tables ≠ [] → tableF pd.tables = []) →
      (extractCascade aiF textF tableF pd).result = []) := by
  by_cases htext : pd.text = "" <;>
    by_cases hai1 : (aiF pd.text).getD [] = [] <;>
    by_cases htf : textF pd.text = [] <;>
    by_cases htab : pd.tables = ([] : List TableInfo) <;>
    simp [extractCascade, htext, hai1, htf, htab]

/-- Witness for C1 at a concrete AI success: the later tiers are not
invoked and the AI yield is returned unchanged. -/
theorem C1_cascade_short_circuit_witness :
    (extractCascade (fun _ => some [⟨⟨2025, 1, 2⟩, "d", ⟨1, 0⟩, "ingreso", "Otros"⟩])
      (fun _ => []) (fun _ => []) ⟨"x", []⟩).textInvoked = false ∧
    (extractCascade (fun _ => some [⟨⟨2025, 1, 2⟩, "d", ⟨1, 0⟩, "ingreso", "Otros"⟩])
      (fun _ => []) (fun _ => []) ⟨"x", []⟩).tableInvoked = false ∧
    (extractCascade (fun _ => some [⟨⟨2025, 1, 2⟩, "d", ⟨1, 0⟩, "ingreso", "Otros"⟩])
      (fun _ => []) (fun _ => []) ⟨"x", []⟩).result =
      ((fun (_ : String) => some [⟨⟨2025, 1, 2⟩, "d", ⟨1, 0⟩, "ingreso", "Otros"⟩])
        ("x" : String)).getD [] :=
  (C1_cascade_short_circuit _ _ _ _).2.2.2.1 (by decide) (by decide)

/-! ## Claim C3 -/

/-- Unrolled form of the categorize-and-total loop: the statement list is
the categorized copy in order, the income total accumulates the
`type == 'ingreso'` entries and the expense total accumulates everything
else. -/
theorem processFoldSpec : ∀ (ts : List Transaction) (l : List Transaction) (i e : Dec),
    ts.foldl processStep (l, i, e) =
      (l ++ ts.map updTx,
        ((ts.map updTx).filter (fun t => t.type = "ingreso")).foldl
          (fun a t => Dec.add a t.amount) i,
        ((ts.map updTx).filter (fun t => ¬t.type = "ingreso")).foldl
          (fun a t => Dec.add a t.amount) e) := by
  intro ts
  induction ts with
  | nil => intro l i e; simp
  | cons t ts ih =>
    intro l i e
    simp only [List.foldl_cons, List.map_cons]
    by_cases hty : (updTx t).type = "ingreso"
    · have hstep : processStep (l, i, e) t = (l ++ [updTx t], Dec.add i (updTx t).amount, e) := by
        simp [processStep, hty]
      rw [hstep, ih]
      simp [List.filter_cons, hty]
    · have hstep : processStep (l, i, e) t = (l ++ [updTx t], i, Dec.add e (updTx t).amount) := by
        simp [processStep, hty]
      rw [hstep, ih]
      simp [List.filter_cons, hty]

/-- C3 counterexample: `main.py` line 86 accumulates every transaction
whose type is not `'ingreso'` into `total_expense`, so a transaction with
the direction tag `"gasto"` (possible through the unvalidated AI tier) is
counted in `total_expense` even though no transaction has direction
`'egreso'`. -/
theorem C3_counterexample :
    (mkStatement "p" [⟨⟨2025, 1, 1⟩, "x", ⟨5, 0⟩, "gasto", "Otros"⟩]).total_expense = ⟨5, 0⟩ ∧
    sumAmounts ((mkStatement "p"
      [⟨⟨2025, 1, 1⟩, "x", ⟨5, 0⟩, "gasto", "Otros"⟩]).transactions.filter
        (fun t => t.type = "egreso")) = Dec.zero ∧
    (⟨5, 0⟩ : Dec) ≠ Dec.zero := by
  refine ⟨by decide, by decide, by decide⟩

/-- C3 (amended): for every processed document, `total_income` is the sum
of the amounts of the statement's transactions with direction `'ingreso'`
and `total_expense` is the sum of the amounts of all remaining
transactions (the `else` branch); when every transaction's direction is
one of the two values — as the spec's data-model invariant assumes —
`total_expense` coincides with the sum over direction `'egreso'`.  Both
sums are `0` on the empty list. -/
theorem C3_amended_totals (period : String) (ts : List Transaction) :
    (mkStatement period ts).total_income =
      sumAmounts ((mkStatement period ts).transactions.filter
        (fun t => t.type = "ingreso")) ∧
    (mkStatement period ts).total_expense =
      sumAmounts ((mkStatement period ts).transactions.filter
        (fun t => ¬t.type = "ingreso")) ∧
    ((∀ t ∈ ts, t.type = "ingreso" ∨ t.type = "egreso") →
      (mkStatement period ts).total_expense =
        sumAmounts ((mkStatement period ts).transactions.filter
          (fun t => t.type = "egreso"))) := by
  unfold mkStatement processTransactions sumAmounts
  rw [processFoldSpec]
  dsimp only
  rw [List.nil_append]
  refine ⟨rfl, rfl, ?_⟩
  intro h
  have hfil : (ts.map updTx).filter (fun t => ¬t.type = "ingreso") =
      (ts.map updTx).filter (fun t => t.type = "egreso") := by
    apply List.filter_congr
    intro t htm
    obtain ⟨t0, ht0, rfl⟩ := List.mem_map.mp htm
    rcases h t0 ht0 with h1 | h1 <;> simp [updTx, h1]
  rw [hfil]

/-- Witness for C3 (amended) on a concrete two-direction list. -/
theorem C3_amended_totals_witness :
    (mkStatement "p" [⟨⟨2025, 1, 1⟩, "x", ⟨5, 0⟩, "egreso", "Otros"⟩,
      ⟨⟨2025, 1, 1⟩, "y", ⟨3, 0⟩, "ingreso", "Otros"⟩]).total_expense =
      sumAmounts ((mkStatement "p" [⟨⟨2025, 1, 1⟩, "x", ⟨5, 0⟩, "egreso", "Otros"⟩,
        ⟨⟨2025, 1, 1⟩, "y", ⟨3, 0⟩, "ingreso", "Otros"⟩]).transactions.filter
          (fun t => t.type = "egreso")) :=
  (C3_amended_totals "p" [⟨⟨2025, 1, 1⟩, "x", ⟨5, 0⟩, "egreso", "Otros"⟩,
    ⟨⟨2025, 1, 1⟩, "y", ⟨3, 0⟩, "ingreso", "Otros"⟩]).2.2 (by decide)

/-! ## Claim C9 -/

theorem categorizeGoFallback (d : String) :
    ∀ (l : List (String × List String)),
      (∀ p ∈ l, ∀ k ∈ p.2, strContains d k = false) → categorizeGo d l = "Otros" := by
  intro l
  induction l with
  | nil => intro _; rfl
  | cons p rest ih =>
    intro h
    rcases p with ⟨cat, kws⟩
    unfold categorizeGo
    rw [if_neg, ih (fun q hq k hk => h q (List.mem_cons_of_mem _ hq) k hk)]
    simp only [List.any_eq_true, not_exists, not_and]
    intro k hk
    rw [h (cat, kws) (List.mem_cons_self _ _) k hk]
    simp

theorem categorizeGoFirst (d : String) :
    ∀ (pre : List (String × List String)) (c : String) (kws : List String)
      (post : List (String × List String)),
      (∀ p ∈ pre, ∀ k ∈ p.2, strContains d k = false) →
      (∃ k ∈ kws, strContains d k = true) →
      categorizeGo d (pre ++ (c, kws) :: post) = c := by
  intro pre
  induction pre with
  | nil =>
    intro c kws post _ hk
    rw [List.nil_append]
    simp only [categorizeGo]
    rw [if_pos]
    rw [List.any_eq_true]
    obtain ⟨k, hk1, hk2⟩ := hk
    exact ⟨k, hk1, hk2⟩
  | cons p rest ih =>
    intro c kws post hpre hk
    rcases p with ⟨cat, kws'⟩
    rw [List.cons_append]
    unfold categorizeGo
    rw [if_neg, ih c kws post (fun q hq k hk => hpre q (List.mem_cons_of_mem _ hq) k hk) hk]
    simp only [List.any_eq_true, not_exists, not_and]
    intro k hkk
    rw [hpre (cat, kws') (List.mem_cons_self _ _) k hkk]
    simp

/-- C9: `categorize` ignores its amount argument, returns the fallback
category `"Otros"` when no keyword of any category occurs in the
lowercased description, and otherwise returns the first category in the
rule set's declaration order one of whose keywords occurs as a substring
of the lowercased description.  Determinism is immediate: it is a pure
function of its arguments. -/
theorem C9_categorize_first_match :
    (∀ dsc a1 a2, categorize dsc a1 = categorize dsc a2) ∧
    (∀ dsc a, (∀ p ∈ CATEGORIES, ∀ k ∈ p.2, strContains (strToLower dsc) k = false) →
      categorize dsc a = "Otros") ∧
    (∀ dsc a (pre : List (String × List String)) (c : String) (kws : List String)
      (post : List (String × List String)),
      CATEGORIES = pre ++ (c, kws) :: post →
      (∀ p ∈ pre, ∀ k ∈ p.2, strContains (strToLower dsc) k = false) →
      (∃ k ∈ kws, strContains (strToLower dsc) k = true) →
      categorize dsc a = c) := by
  refine ⟨fun dsc a1 a2 => rfl, ?_, ?_⟩
  · intro dsc a h
    exact categorizeGoFallback _ _ h
  · intro dsc a pre c kws post hcat hpre hk
    unfold categorize
    rw [hcat]
    exact categorizeGoFirst _ pre c kws post hpre hk

/-- Witness for C9: `"Pago Netflix"` matches no keyword of the seven
categories declared before `Entretenimiento` and matches `"netflix"`, so
it is categorized `"Entretenimiento"`. -/
theorem C9_categorize_first_match_witness :
    categorize "Pago Netflix" Dec.zero = "Entretenimiento" :=
  C9_categorize_first_match.2.2 "Pago Netflix" Dec.zero
    [("Alimentación", ["supermercado", "mercado", "comida", "market", "fruteria"]),
     ("Transporte", ["uber", "cabify", "gasolinera", "peaje", "metro", "bus"]),
     ("Vivienda", ["alquiler", "hipoteca", "mantenimiento", "luz", "agua", "gas"]),
     ("Servicios básicos", ["internet", "telefono", "claro", "movistar", "entel"]),
     ("Salud", ["farmacia", "medico", "hospital", "clinica", "doctor"]),
     ("Educación", ["universidad", "curso", "colegio", "udemy", "platzi"])]
    "Entretenimiento" ["cine", "netflix", "spotify", "juego", "steam"]
    [("Compras", ["amazon", "mercadolibre", "falabella", "ripley", "zara"]),
     ("Suscripciones", ["prime", "hbo", "disney", "apple"]),
     ("Restaurantes", ["restaurante", "dominos", "starbucks", "mcdonalds", "burger"]),
     ("Transferencias", ["transferencia", "traspaso"]),
     ("Impuestos y comisiones", ["comision", "impuesto", "iva", "interes"]),
     ("Ingresos", ["sueldo", "salario", "deposito", "abono"]),
     ("Otros", [])]
    (by decide) (by decide) (by decide)

/-! ## Claim C10 -/

/-- C10 counterexample: the text-based extractor stores
`descripcion[:100]` (transaction_extractor.py line 277) and `main.py`
line 82 classifies the stored description, so a candidate line whose only
category keyword lies beyond character 100 is classified `"Otros"` even
though its untruncated text is classified `"Alimentación"`: truncation
does change the assigned category. -/
theorem C10_counterexample :
    (mkStatement "p" (extract_from_text_banco_chile
        ("PAGO:" ++ ⟨List.replicate 95 'x'⟩ ++ "supermercado\n150.000"))).transactions.map
      (fun t => t.category) = ["Otros"] ∧
    categorize ("PAGO:" ++ ⟨List.replicate 95 'x'⟩ ++ "supermercado") Dec.zero =
      "Alimentación" ∧
    ("Otros" : String) ≠ "Alimentación" := by
  refine ⟨by decide, by decide, by decide⟩

/-- C10 (amended): the text-based extractor stores the candidate line
truncated to 100 characters and classification uses that stored
(truncated) description; for candidate lines of at most 100 characters
truncation is the identity, so the assigned category then equals the one
computed from the untruncated line. -/
theorem C10_amended_truncated_classification :
    (∀ line w, ∀ t ∈ lineTransactions line w, t.description = strTake line 100) ∧
    (∀ period ts, ∀ t ∈ (mkStatement period ts).transactions,
      t.category = categorize t.description t.amount) ∧
    (∀ (s : String) (n : Nat) a, s.toList.length ≤ n →
      categorize (strTake s n) a = categorize s a) := by
  refine ⟨?_, ?_, ?_⟩
  · intro line w t ht
    obtain ⟨a, _, _, hdesc, _⟩ := lineTransactionsCases ht
    exact hdesc
  · intro period ts t ht
    unfold mkStatement processTransactions at ht
    rw [processFoldSpec] at ht
    dsimp only at ht
    rw [List.nil_append] at ht
    obtain ⟨t0, _, rfl⟩ := List.mem_map.mp ht
    rfl
  · intro s n a h
    have hts : strTake s n = s := by
      unfold strTake
      rw [List.take_of_length_le h]
      rcases s with ⟨l⟩
      rfl
    rw [hts]

/-- Witness for C10 (amended): a transaction emitted for a short candidate
line keeps its full description, the pipeline assigns the category of the
stored description, and truncation at 100 does not change the category of
a short line. -/
theorem C10_amended_truncated_classification_witness :
    (Transaction.mk ⟨2025, 12, 1⟩ "PAGO:FARMACIA X" ⟨100, 0⟩ "egreso" "Otros").description =
      strTake "PAGO:FARMACIA X" 100 ∧
    (Transaction.mk ⟨2025, 12, 1⟩ "PAGO:FARMACIA X" ⟨100, 0⟩ "egreso"
      "Salud").category = categorize
        (Transaction.mk ⟨2025, 12, 1⟩ "PAGO:FARMACIA X" ⟨100, 0⟩ "egreso"
          "Salud").description
        (Transaction.mk ⟨2025, 12, 1⟩ "PAGO:FARMACIA X" ⟨100, 0⟩ "egreso"
          "Salud").amount ∧
    categorize (strTake "PAGO:FARMACIA X" 100) Dec.zero =
      categorize "PAGO:FARMACIA X" Dec.zero :=
  ⟨C10_amended_truncated_classification.1 "PAGO:FARMACIA X" ["100"]
      (Transaction.mk ⟨2025, 12, 1⟩ "PAGO:FARMACIA X" ⟨100, 0⟩ "egreso" "Otros")
      (by decide),
    C10_amended_truncated_classification.2.1 "p"
      [⟨⟨2025, 12, 1⟩, "PAGO:FARMACIA X", ⟨100, 0⟩, "egreso", "Otros"⟩]
      (Transaction.mk ⟨2025, 12, 1⟩ "PAGO:FARMACIA X" ⟨100, 0⟩ "egreso" "Salud")
      (by decide),
    C10_amended_truncated_classification.2.2 "PAGO:FARMACIA X" 100 Dec.zero (by decide)⟩

/-! ## Claim C4 -/

/-- C4: for a data row whose date cell resolves and whose description is
non-empty and non-summary, the row loop emits an expense transaction iff
the parsed debit magnitude is strictly positive and, independently, an
income transaction iff the parsed credit magnitude is strictly positive;
when both are positive it emits exactly the two transactions, sharing the
row's date and description. -/
theorem C4_table_row_emission (fechaIdx detalleIdx : Nat) (cargoIdx abonoIdx : Option Nat)
    (row : List String) (fecha : PyDate)
    (hdate : parse_date_banco_chile (pyStrip (cellAt row fechaIdx)) currentYear = some fecha)
    (hsum : (summaryWords.any
      (fun w => strContains (strToLower (cellAt row detalleIdx)) w)) = false)
    (hdesc : ¬(pyStrip (cellAt row detalleIdx) = "" ∨ pyStrip (cellAt row detalleIdx) = "nan")) :
    ((∃ t ∈ rowTransactions fechaIdx detalleIdx cargoIdx abonoIdx row, t.type = "egreso") ↔
      Dec.lt Dec.zero (cellAmount row cargoIdx)) ∧
    ((∃ t ∈ rowTransactions fechaIdx detalleIdx cargoIdx abonoIdx row, t.type = "ingreso") ↔
      Dec.lt Dec.zero (cellAmount row abonoIdx)) ∧
    (Dec.lt Dec.zero (cellAmount row cargoIdx) →
      Dec.lt Dec.zero (cellAmount row abonoIdx) →
      rowTransactions fechaIdx detalleIdx cargoIdx abonoIdx row =
        [⟨fecha, pyStrip (cellAt row detalleIdx), cellAmount row cargoIdx, "egreso", "Otros"⟩,
         ⟨fecha, pyStrip (cellAt row detalleIdx), cellAmount row abonoIdx, "ingreso", "Otros"⟩]) ∧
    (∀ t ∈ rowTransactions fechaIdx detalleIdx cargoIdx abonoIdx row,
      t.date = fecha ∧ t.description = pyStrip (cellAt row detalleIdx)) := by
  have hfe : ¬pyStrip (cellAt row fechaIdx) = "" := by
    intro he
    rw [he] at hdate
    simp [parse_date_banco_chile] at hdate
  have hrow : rowTransactions fechaIdx detalleIdx cargoIdx abonoIdx row =
      (if Dec.lt Dec.zero (cellAmount row cargoIdx) then
        [⟨fecha, pyStrip (cellAt row detalleIdx), cellAmount row cargoIdx, "egreso", "Otros"⟩]
      else []) ++
      (if Dec.lt Dec.zero (cellAmount row abonoIdx) then
        [⟨fecha, pyStrip (cellAt row detalleIdx), cellAmount row abonoIdx, "ingreso", "Otros"⟩]
      else []) := by
    unfold rowTransactions
    dsimp only
    rw [if_neg hfe, if_neg (by rw [hsum]; simp), hdate]
    dsimp only
    rw [if_neg hdesc]
  by_cases hc : Dec.lt Dec.zero (cellAmount row cargoIdx) <;>
    by_cases hb : Dec.lt Dec.zero (cellAmount row abonoIdx) <;>
    simp [hrow, hc, hb]

/-- Witness for C4 on the spec's synthetic table row carrying both a
debit and a credit cell: exactly two transactions, sharing date and
description. -/
theorem C4_table_row_emission_witness :
    rowTransactions 0 1 (some 4) (some 5)
        ["01/02/2024", "Uber Trip", "", "", "5000", "800", ""] =
      [⟨⟨2024, 2, 1⟩, pyStrip (cellAt ["01/02/2024", "Uber Trip", "", "", "5000", "800", ""] 1),
        cellAmount ["01/02/2024", "Uber Trip", "", "", "5000", "800", ""] (some 4),
        "egreso", "Otros"⟩,
       ⟨⟨2024, 2, 1⟩, pyStrip (cellAt ["01/02/2024", "Uber Trip", "", "", "5000", "800", ""] 1),
        cellAmount ["01/02/2024", "Uber Trip", "", "", "5000", "800", ""] (some 5),
        "ingreso", "Otros"⟩] :=
  (C4_table_row_emission 0 1 (some 4) (some 5)
    ["01/02/2024", "Uber Trip", "", "", "5000", "800", ""] ⟨2024, 2, 1⟩
    (by decide) (by decide) (by decide)).2.2.1 (by decide) (by decide)

/-! ## Claim C5 -/

/-- C5: in text extraction, the lookahead takes the first window line
that is not a branch-code placeholder and parses to a strictly positive
amount; a candidate line with a found amount yields exactly one
transaction whose direction is income iff the line contains an income
phrase; and the spec's concrete example — a candidate line containing
`TRANSFERENCIA DESDE` followed by the line `150.000` — yields exactly one
income transaction of amount `150000` (the window is bounded to the five
following lines by `extractTextGo`). -/
theorem C5_text_lookahead_direction :
    (∀ (pre : List String) (x : String) (post : List String),
      (∀ y ∈ pre, sucursalCodes.contains (pyStrip y) = true ∨
          ¬Dec.lt Dec.zero (parse_amount (pyStrip y))) →
      sucursalCodes.contains (pyStrip x) = false →
      Dec.lt Dec.zero (parse_amount (pyStrip x)) →
      findAmountInWindow (pre ++ x :: post) = some (parse_amount (pyStrip x))) ∧
    (∀ (line : String) (w : List String) (a : Dec),
      findAmountInWindow w = some a →
      ((incomePhrases.any (fun p => strContains line p)) = true →
        lineTransactions line w =
          [⟨⟨currentYear, 12, 1⟩, strTake line 100, a, "ingreso", "Otros"⟩]) ∧
      ((incomePhrases.any (fun p => strContains line p)) = false →
        lineTransactions line w =
          [⟨⟨currentYear, 12, 1⟩, strTake line 100, a, "egreso", "Otros"⟩])) ∧
    extract_from_text_banco_chile "TRANSFERENCIA DESDE Juan\n150.000" =
      [⟨⟨2025, 12, 1⟩, "TRANSFERENCIA DESDE Juan", ⟨150000, 0⟩, "ingreso", "Otros"⟩] := by
  refine ⟨?_, ?_, by decide⟩
  · intro pre
    induction pre with
    | nil =>
      intro x post _ hxc hxp
      rw [List.nil_append]
      unfold findAmountInWindow
      dsimp only
      rw [if_neg (by rw [hxc]; simp), if_pos hxp]
    | cons y pre ih =>
      intro x post hpre hxc hxp
      rw [List.cons_append]
      unfold findAmountInWindow
      dsimp only
      rcases hpre y (List.mem_cons_self _ _) with hy | hy
      · rw [if_pos hy]
        exact ih x post (fun z hz => hpre z (List.mem_cons_of_mem _ hz)) hxc hxp
      · by_cases hyc : sucursalCodes.contains (pyStrip y) = true
        · rw [if_pos hyc]
          exact ih x post (fun z hz => hpre z (List.mem_cons_of_mem _ hz)) hxc hxp
        · rw [if_neg hyc, if_neg hy]
          exact ih x post (fun z hz => hpre z (List.mem_cons_of_mem _ hz)) hxc hxp
  · intro line w a h
    unfold lineTransactions
    rw [h]
    dsimp only
    constructor
    · intro hph
      rw [if_pos hph]
    · intro hph
      rw [if_neg (by rw [hph]; simp)]

/-- Witness for C5: the placeholder line `CENTRAL` is skipped and the
first positive amount `150.000` is taken; the candidate line containing
`TRANSFERENCIA DESDE` yields the single income transaction. -/
theorem C5_text_lookahead_direction_witness :
    findAmountInWindow ["CENTRAL", "150.000"] =
      some (parse_amount (pyStrip "150.000")) ∧
    lineTransactions "TRANSFERENCIA DESDE Juan" ["150.000"] =
      [⟨⟨currentYear, 12, 1⟩, strTake "TRANSFERENCIA DESDE Juan" 100, ⟨150000, 0⟩,
        "ingreso", "Otros"⟩] :=
  ⟨C5_text_lookahead_direction.1 ["CENTRAL"] "150.000" []
      (by decide) (by decide) (by decide),
    (C5_text_lookahead_direction.2.1 "TRANSFERENCIA DESDE Juan" ["150.000"] ⟨150000, 0⟩
      (by decide)).1 (by decide)⟩

/-! ## Claim C8 -/

theorem splitCharAuxNoSep (c : Char) :
    ∀ (l acc : List Char), c ∉ l →
      splitCharAux c l acc = [⟨acc.reverse ++ l⟩] := by
  intro l
  induction l with
  | nil => intro acc _; simp [splitCharAux]
  | cons x xs ih =>
    intro acc h
    have hx : ¬x = c := fun he => h (by rw [he]; exact List.mem_cons_self _ _)
    unfold splitCharAux
    rw [if_neg hx, ih (x :: acc) (fun hm => h (List.mem_cons_of_mem _ hm))]
    simp

theorem splitCharAuxSep (c : Char) :
    ∀ (l1 l2 acc : List Char), c ∉ l1 →
      splitCharAux c (l1 ++ c :: l2) acc =
        ⟨acc.reverse ++ l1⟩ :: splitCharAux c l2 [] := by
  intro l1
  induction l1 with
  | nil =>
    intro l2 acc _
    rw [List.nil_append]
    conv_lhs => unfold splitCharAux
    rw [if_pos rfl]
    simp
  | cons x xs ih =>
    intro l2 acc h
    have hx : ¬x = c := fun he => h (by rw [he]; exact List.mem_cons_self _ _)
    rw [List.cons_append]
    conv_lhs => unfold splitCharAux
    rw [if_neg hx, ih l2 (x :: acc) (fun hm => h (List.mem_cons_of_mem _ hm))]
    simp

theorem toIntPyDigits (cs : List Char) (h1 : cs ≠ [])
    (h2 : ∀ c ∈ cs, pyIsDigit c = true) :
    toIntPy? ⟨cs⟩ = some ((digitsToNat cs : Int)) := by
  unfold toIntPy?
  rw [pyStripEqSelf (fun c hc => digitNotSpace (h2 c hc))]
  rcases cs with _ | ⟨c, rest⟩
  · exact absurd rfl h1
  · have htl : String.toList ⟨c :: rest⟩ = c :: rest := rfl
    rw [htl]
    have hok : digitsOk (c :: rest) = true := by
      unfold digitsOk
      simp only [List.isEmpty_cons, Bool.not_false, Bool.true_and]
      exact List.all_eq_true.mpr h2
    split
    · rename_i rest' heq
      injection heq with hh _
      exact absurd hh (digitNeChar (h2 c (List.mem_cons_self _ _)) (by decide))
    · rename_i rest' heq
      injection heq with hh _
      exact absurd hh (digitNeChar (h2 c (List.mem_cons_self _ _)) (by decide))
    · rw [if_pos hok]

theorem slashStrNeNil {l : List Char} (h : '/' ∈ l) : (⟨l⟩ : String) ≠ "" := by
  intro he
  have hd : l = ("" : String).data := congrArg String.data he
  rw [hd] at h
  exact absurd h (by decide)

theorem slashStrNeNan {l : List Char} (h : '/' ∈ l) : (⟨l⟩ : String) ≠ "nan" := by
  intro he
  have hd : l = ("nan" : String).data := congrArg String.data he
  rw [hd] at h
  exact absurd h (by decide)

theorem dateSomeValid {a b c : Int} {dt : PyDate} (h : date? a b c = some dt) :
    validDate dt.year dt.month dt.day = true := by
  unfold date? at h
  split at h
  · rename_i hv
    rw [Option.some_inj] at h
    rw [← h]
    exact hv
  · exact absurd h (by simp)

/-- C8 counterexample: the resolver keys on the numeric value, not the
digit count, so the four-digit year string `"0049"` has value `49 < 100`
and is resolved to `2049` by the two-digit rule instead of being kept as
given. -/
theorem C8_counterexample :
    parse_date_banco_chile "01/02/0049" 2025 = some ⟨2049, 2, 1⟩ ∧
    (2049 : Int) ≠ 49 := by
  refine ⟨by decide, by decide⟩

/-- C8 (amended): a valid two-part `DD/MM` input yields a date in
`default_year` with matching day and month; a three-part input with year
value below 100 resolves the year to `2000+Y` when `Y < 50` and `1900+Y`
otherwise; a year whose numeric value is at least 100 (in particular any
four-digit year from 1000) is kept as given, while a zero-padded
four-digit year below 100 falls under the two-digit rule; and every
result that is not `none` is a calendar-valid date — malformed or
out-of-range input yields `none`, never an exception and never a corrupt
date. -/
theorem C8_parse_date_resolution :
    (∀ (y : Int) (dcs mcs : List Char),
      dcs ≠ [] → (∀ c ∈ dcs, pyIsDigit c = true) →
      mcs ≠ [] → (∀ c ∈ mcs, pyIsDigit c = true) →
      validDate y (digitsToNat mcs : Int) (digitsToNat dcs : Int) = true →
      parse_date_banco_chile ⟨dcs ++ '/' :: mcs⟩ y =
        some ⟨y, (digitsToNat mcs : Int), (digitsToNat dcs : Int)⟩) ∧
    (∀ (y : Int) (dcs mcs ycs : List Char),
      dcs ≠ [] → (∀ c ∈ dcs, pyIsDigit c = true) →
      mcs ≠ [] → (∀ c ∈ mcs, pyIsDigit c = true) →
      ycs ≠ [] → (∀ c ∈ ycs, pyIsDigit c = true) →
      (digitsToNat ycs : Int) < 100 →
      validDate (if (digitsToNat ycs : Int) < 50 then 2000 + (digitsToNat ycs : Int)
          else 1900 + (digitsToNat ycs : Int))
        (digitsToNat mcs : Int) (digitsToNat dcs : Int) = true →
      parse_date_banco_chile ⟨dcs ++ '/' :: (mcs ++ '/' :: ycs)⟩ y =
        some ⟨if (digitsToNat ycs : Int) < 50 then 2000 + (digitsToNat ycs : Int)
            else 1900 + (digitsToNat ycs : Int),
          (digitsToNat mcs : Int), (digitsToNat dcs : Int)⟩) ∧
    (∀ (y : Int) (dcs mcs ycs : List Char),
      dcs ≠ [] → (∀ c ∈ dcs, pyIsDigit c = true) →
      mcs ≠ [] → (∀ c ∈ mcs, pyIsDigit c = true) →
      ycs ≠ [] → (∀ c ∈ ycs, pyIsDigit c = true) →
      100 ≤ (digitsToNat ycs : Int) →
      validDate (digitsToNat ycs : Int) (digitsToNat mcs : Int)
        (digitsToNat dcs : Int) = true →
      parse_date_banco_chile ⟨dcs ++ '/' :: (mcs ++ '/' :: ycs)⟩ y =
        some ⟨(digitsToNat ycs : Int), (digitsToNat mcs : Int),
          (digitsToNat dcs : Int)⟩) ∧
    (∀ (s : String) (y : Int) (dt : PyDate),
      parse_date_banco_chile s y = some dt →
      validDate dt.year dt.month dt.day = true) := by
  have hguards : ∀ (l : List Char), '/' ∈ l →
      ¬((⟨l⟩ : String) = "" ∨ (⟨l⟩ : String) = "nan") := by
    intro l hl h
    rcases h with h | h
    · exact slashStrNeNil hl h
    · exact slashStrNeNan hl h
  have hstrip : ∀ (l : List Char), (∀ c ∈ l, pyIsDigit c = true ∨ c = '/') →
      pyStrip ⟨l⟩ = ⟨l⟩ := by
    intro l h
    refine pyStripEqSelf (fun c hc => ?_)
    rcases h c hc with h1 | h1
    · exact digitNotSpace h1
    · rw [h1]; decide
  refine ⟨?_, ?_, ?_, ?_⟩
  · intro y dcs mcs hd1 hd2 hm1 hm2 hv
    unfold parse_date_banco_chile
    rw [if_neg (hguards _ (by simp)), hstrip _ (by
      intro c hc
      rcases List.mem_append.mp hc with h | h
      · exact Or.inl (hd2 c h)
      · rcases List.mem_cons.mp h with h | h
        · exact Or.inr h
        · exact Or.inl (hm2 c h))]
    have hnd : '/' ∉ dcs := fun hmx => digitNeChar (hd2 _ hmx) (by decide) rfl
    have hnm : '/' ∉ mcs := fun hmx => digitNeChar (hm2 _ hmx) (by decide) rfl
    unfold splitChar
    have ht : String.toList ⟨dcs ++ '/' :: mcs⟩ = dcs ++ '/' :: mcs := rfl
    rw [ht, splitCharAuxSep _ dcs mcs [] hnd, splitCharAuxNoSep _ mcs [] hnm]
    dsimp only [List.reverse_nil, List.nil_append]
    rw [toIntPyDigits dcs hd1 hd2, toIntPyDigits mcs hm1 hm2]
    dsimp only
    unfold date?
    rw [if_pos hv]
  · intro y dcs mcs ycs hd1 hd2 hm1 hm2 hy1 hy2 hlt hv
    unfold parse_date_banco_chile
    rw [if_neg (hguards _ (by simp)), hstrip _ (by
      intro c hc
      rcases List.mem_append.mp hc with h | h
      · exact Or.inl (hd2 c h)
      · rcases List.mem_cons.mp h with h | h
        · exact Or.inr h
        · rcases List.mem_append.mp h with h | h
          · exact Or.inl (hm2 c h)
          · rcases List.mem_cons.mp h with h | h
            · exact Or.inr h
            · exact Or.inl (hy2 c h))]
    have hnd : '/' ∉ dcs := fun hmx => digitNeChar (hd2 _ hmx) (by decide) rfl
    have hnm : '/' ∉ mcs := fun hmx => digitNeChar (hm2 _ hmx) (by decide) rfl
    have hny : '/' ∉ ycs := fun hmx => digitNeChar (hy2 _ hmx) (by decide) rfl
    unfold splitChar
    have ht : String.toList ⟨dcs ++ '/' :: (mcs ++ '/' :: ycs)⟩ =
        dcs ++ '/' :: (mcs ++ '/' :: ycs) := rfl
    rw [ht, splitCharAuxSep _ dcs _ [] hnd, splitCharAuxSep _ mcs _ [] hnm,
      splitCharAuxNoSep _ ycs [] hny]
    dsimp only [List.reverse_nil, List.nil_append]
    rw [toIntPyDigits dcs hd1 hd2, toIntPyDigits mcs hm1 hm2, toIntPyDigits ycs hy1 hy2]
    dsimp only
    rw [if_pos hlt]
    unfold date?
    rw [if_pos hv]
  · intro y dcs mcs ycs hd1 hd2 hm1 hm2 hy1 hy2 hge hv
    unfold parse_date_banco_chile
    rw [if_neg (hguards _ (by simp)), hstrip _ (by
      intro c hc
      rcases List.mem_append.mp hc with h | h
      · exact Or.inl (hd2 c h)
      · rcases List.mem_cons.mp h with h | h
        · exact Or.inr h
        · rcases List.mem_append.mp h with h | h
          · exact Or.inl (hm2 c h)
          · rcases List.mem_cons.mp h with h | h
            · exact Or.inr h
            · exact Or.inl (hy2 c h))]
    have hnd : '/' ∉ dcs := fun hmx => digitNeChar (hd2 _ hmx) (by decide) rfl
    have hnm : '/' ∉ mcs := fun hmx => digitNeChar (hm2 _ hmx) (by decide) rfl
    have hny : '/' ∉ ycs := fun hmx => digitNeChar (hy2 _ hmx) (by decide) rfl
    unfold splitChar
    have ht : String.toList ⟨dcs ++ '/' :: (mcs ++ '/' :: ycs)⟩ =
        dcs ++ '/' :: (mcs ++ '/' :: ycs) := rfl
    rw [ht, splitCharAuxSep _ dcs _ [] hnd, splitCharAuxSep _ mcs _ [] hnm,
      splitCharAuxNoSep _ ycs [] hny]
    dsimp only [List.reverse_nil, List.nil_append]
    rw [toIntPyDigits dcs hd1 hd2, toIntPyDigits mcs hm1 hm2, toIntPyDigits ycs hy1 hy2]
    dsimp only
    rw [if_neg (not_lt.mpr hge)]
    unfold date?
    rw [if_pos hv]
  · intro s y dt h
    unfold parse_date_banco_chile at h
    split at h
    · exact absurd h (by simp)
    · split at h
      · split at h
        · exact dateSomeValid h
        · exact absurd h (by simp)
      · split at h
        · exact dateSomeValid h
        · exact absurd h (by simp)
      · exact absurd h (by simp)

/-- Witness for C8 (amended) on the two-part input `01/02` with default
year 2024 and the three-part inputs `01/02/99` and `01/02/2024`. -/
theorem C8_parse_date_resolution_witness :
    parse_date_banco_chile ⟨['0', '1'] ++ '/' :: ['0', '2']⟩ 2024 =
      some ⟨2024, (digitsToNat ['0', '2'] : Int), (digitsToNat ['0', '1'] : Int)⟩ ∧
    parse_date_banco_chile ⟨['0', '1'] ++ '/' :: (['0', '2'] ++ '/' :: ['9', '9'])⟩ 2025 =
      some ⟨if (digitsToNat ['9', '9'] : Int) < 50 then 2000 + (digitsToNat ['9', '9'] : Int)
          else 1900 + (digitsToNat ['9', '9'] : Int),
        (digitsToNat ['0', '2'] : Int), (digitsToNat ['0', '1'] : Int)⟩ ∧
    parse_date_banco_chile
        ⟨['0', '1'] ++ '/' :: (['0', '2'] ++ '/' :: ['2', '0', '2', '4'])⟩ 2025 =
      some ⟨(digitsToNat ['2', '0', '2', '4'] : Int), (digitsToNat ['0', '2'] : Int),
        (digitsToNat ['0', '1'] : Int)⟩ :=
  ⟨C8_parse_date_resolution.1 2024 ['0', '1'] ['0', '2'] (by decide) (by decide)
      (by decide) (by decide) (by decide),
    C8_parse_date_resolution.2.1 2025 ['0', '1'] ['0', '2'] ['9', '9'] (by decide)
      (by decide) (by decide) (by decide) (by decide) (by decide) (by decide) (by decide),
    C8_parse_date_resolution.2.2.1 2025 ['0', '1'] ['0', '2'] ['2', '0', '2', '4']
      (by decide) (by decide) (by decide) (by decide) (by decide) (by decide)
      (by decide) (by decide)⟩

/-! ## Claim C7: digit-string lemmas -/

theorem listTakeWhileEqSelf {p : Char → Bool} {l : List Char}
    (h : ∀ c ∈ l, p c = true) : l.takeWhile p = l := by
  induction l with
  | nil => rfl
  | cons c t ih =>
    rw [List.takeWhile_cons, if_pos (h c (List.mem_cons_self _ _)),
      ih (fun x hx => h x (List.mem_cons_of_mem _ hx))]

theorem listDropWhileEqNil {p : Char → Bool} {l : List Char}
    (h : ∀ c ∈ l, p c = true) : l.dropWhile p = [] := by
  induction l with
  | nil => rfl
  | cons c t ih =>
    rw [List.dropWhile_cons, if_pos (h c (List.mem_cons_self _ _)),
      ih (fun x hx => h x (List.mem_cons_of_mem _ hx))]

theorem listTakeWhileAppend {p : Char → Bool} {l1 l2 : List Char} {x : Char}
    (h1 : ∀ c ∈ l1, p c = true) (hx : p x = false) :
    (l1 ++ x :: l2).takeWhile p = l1 := by
  induction l1 with
  | nil => simp [List.takeWhile_cons, hx]
  | cons c t ih =>
    rw [List.cons_append, List.takeWhile_cons, if_pos (h1 c (List.mem_cons_self _ _)),
      ih (fun y hy => h1 y (List.mem_cons_of_mem _ hy))]

theorem listDropWhileAppend {p : Char → Bool} {l1 l2 : List Char} {x : Char}
    (h1 : ∀ c ∈ l1, p c = true) (hx : p x = false) :
    (l1 ++ x :: l2).dropWhile p = x :: l2 := by
  induction l1 with
  | nil => simp [List.dropWhile_cons, hx]
  | cons c t ih =>
    rw [List.cons_append, List.dropWhile_cons, if_pos (h1 c (List.mem_cons_self _ _)),
      ih (fun y hy => h1 y (List.mem_cons_of_mem _ hy))]

theorem digitsToNatFoldFrom : ∀ (l : List Char) (a : Nat),
    l.foldl (fun a c => a * 10 + (c.toNat - 48)) a =
      a * 10 ^ l.length + digitsToNat l := by
  intro l
  induction l with
  | nil => intro a; simp [digitsToNat]
  | cons c t ih =>
    intro a
    have hd : digitsToNat (c :: t) = (c.toNat - 48) * 10 ^ t.length + digitsToNat t := by
      have h0 : digitsToNat (c :: t) =
          List.foldl (fun a c => a * 10 + (c.toNat - 48)) (0 * 10 + (c.toNat - 48)) t := rfl
      rw [h0, ih (0 * 10 + (c.toNat - 48))]
      ring_nf
    rw [List.foldl_cons, ih (a * 10 + (c.toNat - 48)), hd, List.length_cons]
    ring

theorem digitsToNatAppend (l1 l2 : List Char) :
    digitsToNat (l1 ++ l2) = digitsToNat l1 * 10 ^ l2.length + digitsToNat l2 := by
  unfold digitsToNat
  rw [List.foldl_append]
  exact digitsToNatFoldFrom l2 _

theorem digitsToNatReplicateZero (z : Nat) :
    digitsToNat (List.replicate z '0') = 0 := by
  induction z with
  | zero => rfl
  | succ z ih =>
    unfold digitsToNat at ih ⊢
    rw [List.replicate_succ, List.foldl_cons]
    simpa using ih

theorem digitsToNatLeadingZeros (z : Nat) (l : List Char) :
    digitsToNat (List.replicate z '0' ++ l) = digitsToNat l := by
  rw [digitsToNatAppend, digitsToNatReplicateZero]
  simp

theorem digitCharVal {d : Nat} (h : d < 10) : (Nat.digitChar d).toNat - 48 = d := by
  interval_cases d <;> decide

theorem digitCharDigit {d : Nat} (h : d < 10) : pyIsDigit (Nat.digitChar d) = true := by
  interval_cases d <;> decide

theorem natToDigitsVal : ∀ (fuel n : Nat), n ≤ fuel →
    digitsToNat (natToDigits fuel n) = n := by
  intro fuel
  induction fuel with
  | zero =>
    intro n h
    have : n = 0 := Nat.le_zero.mp h
    subst this
    rfl
  | succ fuel ih =>
    intro n h
    unfold natToDigits
    by_cases h0 : n = 0
    · rw [if_pos h0, h0]; rfl
    · rw [if_neg h0, digitsToNatAppend]
      have hlt : n / 10 < n := Nat.div_lt_self (Nat.pos_of_ne_zero h0) (by norm_num)
      rw [ih (n / 10) (by omega)]
      have hv : digitsToNat [Nat.digitChar (n % 10)] = n % 10 := by
        unfold digitsToNat
        rw [List.foldl_cons, List.foldl_nil]
        rw [Nat.zero_mul, Nat.zero_add]
        exact digitCharVal (Nat.mod_lt _ (by norm_num))
      rw [hv, List.length_singleton, pow_one]
      omega

theorem natToDigitsDigits : ∀ (fuel n : Nat), ∀ c ∈ natToDigits fuel n,
    pyIsDigit c = true := by
  intro fuel
  induction fuel with
  | zero => intro n c hc; exact absurd hc (by simp [natToDigits])
  | succ fuel ih =>
    intro n c hc
    unfold natToDigits at hc
    by_cases h0 : n = 0
    · rw [if_pos h0] at hc
      exact absurd hc (by simp)
    · rw [if_neg h0] at hc
      rcases List.mem_append.mp hc with h | h
      · exact ih (n / 10) c h
      · rw [List.mem_singleton] at h
        rw [h]
        exact digitCharDigit (Nat.mod_lt _ (by norm_num))

theorem natToDigitsLen : ∀ (fuel n k : Nat), n < 10 ^ k →
    (natToDigits fuel n).length ≤ k := by
  intro fuel
  induction fuel with
  | zero => intro n k _; simp [natToDigits]
  | succ fuel ih =>
    intro n k hk
    unfold natToDigits
    by_cases h0 : n = 0
    · rw [if_pos h0]; simp
    · rw [if_neg h0]
      rcases k with _ | k'
    
      · rw [pow_zero] at hk
        exact absurd (Nat.lt_one_iff.mp hk) h0
      · have hdiv : n / 10 < 10 ^ k' := by
          rw [Nat.div_lt_iff_lt_mul (by norm_num : 0 < 10)]
          rw [pow_succ] at hk
          exact hk
        have := ih (n / 10) k' hdiv
        rw [List.length_append, List.length_singleton]
        omega

theorem natStrVal (n : Nat) : digitsToNat (natStr n).data = n := by
  unfold natStr
  by_cases h0 : n = 0
  · rw [if_pos h0, h0]; rfl
  · rw [if_neg h0]
    exact natToDigitsVal (n + 1) n (by omega)

theorem natStrDigits (n : Nat) : ∀ c ∈ (natStr n).data, pyIsDigit c = true := by
  unfold natStr
  by_cases h0 : n = 0
  · rw [if_pos h0]; intro c hc; rw [List.mem_singleton.mp hc]; decide
  · rw [if_neg h0]
    exact natToDigitsDigits (n + 1) n

theorem natStrNonempty (n : Nat) : (natStr n).data ≠ [] := by
  unfold natStr
  by_cases h0 : n = 0
  · rw [if_pos h0]; decide
  · rw [if_neg h0]
    show natToDigits (n + 1) n ≠ []
    unfold natToDigits
    rw [if_neg h0]
    simp

theorem memStrNe {l : List Char} {c : Char} (hm : c ∈ l) (t : String)
    (hn : c ∉ t.data) : (⟨l⟩ : String) ≠ t := by
  intro he
  have hd : l = t.data := congrArg String.data he
  rw [hd] at hm
  exact hn hm

theorem strNeNil {l : List Char} (h : l ≠ []) : (⟨l⟩ : String) ≠ "" := by
  intro he
  exact h (congrArg String.data he)

/-! ## Claim C7: parsing canonical digit strings -/

theorem removeCharEqSelf {l : List Char} {c : Char}
    (h : ∀ x ∈ l, (x != c) = true) : removeChar ⟨l⟩ c = ⟨l⟩ := by
  unfold removeChar
  exact congrArg String.mk (listFilterEqSelf h)

theorem replaceCharFix {l : List Char} {a b : Char}
    (h : ∀ x ∈ l, x ≠ a) : replaceChar ⟨l⟩ a b = ⟨l⟩ := by
  unfold replaceChar
  exact congrArg String.mk (listMapFixOfAll (fun c hc => if_neg (h c hc)))

theorem keepNumEqSelf {l : List Char}
    (h : ∀ c ∈ l, (pyIsDigit c || c = '.' || c = '-') = true) :
    keepNumChars ⟨l⟩ = ⟨l⟩ := by
  unfold keepNumChars
  exact congrArg String.mk (listFilterEqSelf h)

theorem parseDecimalAllDigits (cs : List Char) (h1 : cs ≠ [])
    (h2 : ∀ c ∈ cs, pyIsDigit c = true) :
    parseDecimal? cs = some ⟨(digitsToNat cs : Int), 0⟩ := by
  unfold parseDecimal?
  dsimp only
  rw [listTakeWhileEqSelf h2, listDropWhileEqNil h2]
  dsimp only
  rw [if_neg]
  intro he
  rw [List.isEmpty_iff] at he
  exact h1 he

theorem parseDecimalComma (ics fcs : List Char) (h1 : ics ≠ [])
    (h2 : ∀ c ∈ ics, pyIsDigit c = true) (h3 : ∀ c ∈ fcs, pyIsDigit c = true) :
    parseDecimal? (ics ++ '.' :: fcs) =
      some (normDec ((digitsToNat ics : Int) * 10 ^ fcs.length +
        (digitsToNat fcs : Int)) fcs.length) := by
  unfold parseDecimal?
  dsimp only
  rw [listTakeWhileAppend h2 (by decide), listDropWhileAppend h2 (by decide)]
  have hie : ics.isEmpty = false := by
    rcases ics with _ | ⟨c, t⟩
    · exact absurd rfl h1
    · rfl
  show (if ((!ics.isEmpty || !fcs.isEmpty) && fcs.all pyIsDigit) = true then
      some (normDec ((digitsToNat ics : Int) * 10 ^ fcs.length +
        (digitsToNat fcs : Int)) fcs.length)
    else none) =
    some (normDec ((digitsToNat ics : Int) * 10 ^ fcs.length +
      (digitsToNat fcs : Int)) fcs.length)
  rw [if_pos (by rw [hie, List.all_eq_true.mpr h3]; rfl)]

theorem floatOfDigits (cs : List Char) (h1 : cs ≠ [])
    (h2 : ∀ c ∈ cs, pyIsDigit c = true) :
    floatOfStringPy? ⟨cs⟩ = some ⟨(digitsToNat cs : Int), 0⟩ := by
  unfold floatOfStringPy?
  rw [show String.toList ⟨cs⟩ = cs from rfl]
  rcases cs with _ | ⟨c, rest⟩
  · exact absurd rfl h1
  · split
    · rename_i rest' heq
      injection heq with hh _
      exact absurd hh (digitNeChar (h2 c (List.mem_cons_self _ _)) (by decide))
    · rename_i rest' heq
      injection heq with hh _
      exact absurd hh (digitNeChar (h2 c (List.mem_cons_self _ _)) (by decide))
    · exact parseDecimalAllDigits (c :: rest) (by simp) h2

theorem floatOfDigitsComma (ics fcs : List Char) (h1 : ics ≠ [])
    (h2 : ∀ c ∈ ics, pyIsDigit c = true) (h3 : ∀ c ∈ fcs, pyIsDigit c = true) :
    floatOfStringPy? ⟨ics ++ '.' :: fcs⟩ =
      some (normDec ((digitsToNat ics : Int) * 10 ^ fcs.length +
        (digitsToNat fcs : Int)) fcs.length) := by
  unfold floatOfStringPy?
  rw [show String.toList ⟨ics ++ '.' :: fcs⟩ = ics ++ '.' :: fcs from rfl]
  rcases ics with _ | ⟨c, irest⟩
  · exact absurd rfl h1
  · rw [List.cons_append]
    split
    · rename_i rest' heq
      injection heq with hh _
      exact absurd hh (digitNeChar (h2 c (List.mem_cons_self _ _)) (by decide))
    · rename_i rest' heq
      injection heq with hh _
      exact absurd hh (digitNeChar (h2 c (List.mem_cons_self _ _)) (by decide))
    · rw [← List.cons_append]
      exact parseDecimalComma (c :: irest) fcs (by simp) h2 h3

theorem parseAmountDigits (cs : List Char) (h1 : cs ≠ [])
    (h2 : ∀ c ∈ cs, pyIsDigit c = true) :
    parse_amount ⟨cs⟩ = ⟨(digitsToNat cs : Int), 0⟩ := by
  have hne : ∀ (t : String), (∃ c ∈ t.data, pyIsDigit c = false) →
      (⟨cs⟩ : String) ≠ t := by
    rintro t ⟨c, hct, hcf⟩ he
    have hd : cs = t.data := congrArg String.data he
    have := h2 c (by rw [hd]; exact hct)
    rw [hcf] at this
    exact Bool.false_ne_true this
  unfold parse_amount
  rw [if_neg (by
    push_neg
    exact ⟨strNeNil h1, hne "nan" ⟨'n', by decide, by decide⟩,
      hne "None" ⟨'N', by decide, by decide⟩, hne "none" ⟨'n', by decide, by decide⟩,
      hne "NULL" ⟨'N', by decide, by decide⟩⟩)]
  dsimp only
  rw [removeCharEqSelf (fun c hc => digitBne (h2 c hc) (by decide)),
    removeCharEqSelf (fun c hc => digitBne (h2 c hc) (by decide)),
    pyStripEqSelf (fun c hc => digitNotSpace (h2 c hc))]
  rw [if_neg (by
    push_neg
    exact ⟨strNeNil h1, hne "-" ⟨'-', by decide, by decide⟩,
      hne "." ⟨'.', by decide, by decide⟩⟩)]
  rw [removeCharEqSelf (fun c hc => digitBne (h2 c hc) (by decide)),
    replaceCharFix (fun c hc => digitNeChar (h2 c hc) (by decide)),
    keepNumEqSelf (fun c hc => by rw [h2 c hc]; rfl)]
  rw [if_neg (by
    push_neg
    exact ⟨strNeNil h1, hne "-" ⟨'-', by decide, by decide⟩⟩)]
  rw [floatOfDigits cs h1 h2]
  dsimp only
  unfold Dec.abs
  dsimp only
  rw [abs_of_nonneg (Int.ofNat_nonneg _)]

theorem parseAmountDigitsComma (ics fcs : List Char) (h1 : ics ≠ [])
    (h2 : ∀ c ∈ ics, pyIsDigit c = true) (h3 : ∀ c ∈ fcs, pyIsDigit c = true) :
    parse_amount ⟨ics ++ ',' :: fcs⟩ =
      Dec.abs (normDec ((digitsToNat ics : Int) * 10 ^ fcs.length +
        (digitsToNat fcs : Int)) fcs.length) := by
  have hall : ∀ c ∈ ics ++ ',' :: fcs, pyIsDigit c = true ∨ c = ',' := by
    intro c hc
    rcases List.mem_append.mp hc with h | h
    · exact Or.inl (h2 c h)
    · rcases List.mem_cons.mp h with h | h
      · exact Or.inr h
      · exact Or.inl (h3 c h)
  have hmc : ',' ∈ ics ++ ',' :: fcs := by simp
  have hnonnil : ics ++ ',' :: fcs ≠ [] := by simp
  have hbd : ∀ x ∈ ics ++ ',' :: fcs, (x != '$') = true := by
    intro c hc
    rcases hall c hc with h | h
    · exact digitBne h (by decide)
    · rw [h]; decide
  have hbs : ∀ x ∈ ics ++ ',' :: fcs, (x != ' ') = true := by
    intro c hc
    rcases hall c hc with h | h
    · exact digitBne h (by decide)
    · rw [h]; decide
  have hsp : ∀ c ∈ ics ++ ',' :: fcs, isPySpace c = false := by
    intro c hc
    rcases hall c hc with h | h
    · exact digitNotSpace h
    · rw [h]; decide
  have hbp : ∀ x ∈ ics ++ ',' :: fcs, (x != '.') = true := by
    intro c hc
    rcases hall c hc with h | h
    · exact digitBne h (by decide)
    · rw [h]; decide
  have hkn : ∀ c ∈ ics ++ '.' :: fcs, (pyIsDigit c || c = '.' || c = '-') = true := by
    intro c hc
    rcases List.mem_append.mp hc with h | h
    · rw [h2 c h]; rfl
    · rcases List.mem_cons.mp h with h | h
      · rw [h]; rfl
      · rw [h3 c h]; rfl
  have hmd : '.' ∈ ics ++ '.' :: fcs := by simp
  unfold parse_amount
  rw [if_neg (by
    push_neg
    exact ⟨strNeNil hnonnil, memStrNe hmc "nan" (by decide),
      memStrNe hmc "None" (by decide), memStrNe hmc "none" (by decide),
      memStrNe hmc "NULL" (by decide)⟩)]
  dsimp only
  rw [removeCharEqSelf hbd, removeCharEqSelf hbs, pyStripEqSelf hsp]
  rw [if_neg (by
    push_neg
    exact ⟨strNeNil hnonnil, memStrNe hmc "-" (by decide),
      memStrNe hmc "." (by decide)⟩)]
  rw [removeCharEqSelf hbp]
  have hrep : replaceChar ⟨ics ++ ',' :: fcs⟩ ',' '.' = ⟨ics ++ '.' :: fcs⟩ := by
    unfold replaceChar
    refine congrArg String.mk ?_
    rw [show String.toList ⟨ics ++ ',' :: fcs⟩ = ics ++ ',' :: fcs from rfl]
    rw [List.map_append, List.map_cons]
    rw [listMapFixOfAll (fun c hc => if_neg (digitNeChar (h2 c hc) (by decide))),
      listMapFixOfAll (fun c hc => if_neg (digitNeChar (h3 c hc) (by decide))),
      if_pos rfl]
  rw [hrep]
  rw [keepNumEqSelf hkn]
  rw [if_neg (by
    push_neg
    exact ⟨strNeNil (by simp), memStrNe hmd "-" (by decide)⟩)]
  rw [floatOfDigitsComma ics fcs h1 h2 h3]

/-! ## Claim C7: the round trip -/

theorem stringDataEq {a b : String} (h : a.data = b.data) : a = b := by
  rcases a with ⟨x⟩
  rcases b with ⟨y⟩
  exact congrArg String.mk h

theorem strAppendData (a b : String) : (a ++ b).data = a.data ++ b.data := by
  rcases a with ⟨x⟩
  rcases b with ⟨y⟩
  rfl

theorem fracStrDigits (r k : Nat) : ∀ c ∈ (fracStr r k).data, pyIsDigit c = true := by
  intro c hc
  unfold fracStr at hc
  dsimp only at hc
  rcases List.mem_append.mp hc with h | h
  · rw [List.eq_of_mem_replicate h]
    decide
  · exact natToDigitsDigits (r + 1) r c h

theorem fracStrVal (r k : Nat) : digitsToNat (fracStr r k).data = r := by
  unfold fracStr
  dsimp only
  rw [digitsToNatLeadingZeros]
  exact natToDigitsVal (r + 1) r (by omega)

theorem fracStrLen (r k : Nat) (hr : r < 10 ^ k) : (fracStr r k).data.length = k := by
  unfold fracStr
  dsimp only
  rw [List.length_append, List.length_replicate]
  have := natToDigitsLen (r + 1) r k hr
  omega

theorem fracStrNonempty (r k : Nat) (hk : k ≠ 0) (hr : r < 10 ^ k) :
    (fracStr r k).data ≠ [] := by
  intro he
  have := fracStrLen r k hr
  rw [he] at this
  exact hk this.symm

/-- Round trip of the canonical rendering: rendering a non-negative,
canonical-form decimal and parsing it back recovers the value exactly. -/
theorem renderRoundtrip (d : Dec) (hm : 0 ≤ d.m) (hn : d.e = 0 ∨ ¬d.m % 10 = 0) :
    parse_amount (renderAmount d) = d := by
  rcases d with ⟨m, e⟩
  simp only at hm hn
  rcases e with _ | e'
  · unfold renderAmount
    dsimp only
    rw [if_pos rfl]
    have h2 := parseAmountDigits (natStr m.natAbs).data (natStrNonempty _) (natStrDigits _)
    rw [natStrVal] at h2
    have h3 : parse_amount (natStr m.natAbs) = ⟨(m.natAbs : Int), 0⟩ := h2
    rw [h3, Int.natAbs_of_nonneg hm]
  · have hmod : ¬m % 10 = 0 := by
      rcases hn with h | h
      · exact absurd h (by simp)
      · exact h
    unfold renderAmount
    dsimp only
    rw [if_neg (Nat.succ_ne_zero e')]
    have hrlt : m.natAbs % 10 ^ (e' + 1) < 10 ^ (e' + 1) :=
      Nat.mod_lt _ (by positivity)
    have hdata : (natStr (m.natAbs / 10 ^ (e' + 1)) ++ "," ++
        fracStr (m.natAbs % 10 ^ (e' + 1)) (e' + 1)) =
        (⟨(natStr (m.natAbs / 10 ^ (e' + 1))).data ++
          ',' :: (fracStr (m.natAbs % 10 ^ (e' + 1)) (e' + 1)).data⟩ : String) := by
      apply stringDataEq
      rw [strAppendData, strAppendData]
      simp
    rw [hdata]
    rw [parseAmountDigitsComma _ _ (natStrNonempty _) (natStrDigits _) (fracStrDigits _ _)]
    rw [fracStrLen _ _ hrlt, fracStrVal, natStrVal]
    have harith : ((m.natAbs / 10 ^ (e' + 1) : Nat) : Int) * 10 ^ (e' + 1) +
        ((m.natAbs % 10 ^ (e' + 1) : Nat) : Int) = ((m.natAbs : Nat) : Int) := by
      rw [show ((m.natAbs / 10 ^ (e' + 1) : Nat) : Int) * 10 ^ (e' + 1) +
          ((m.natAbs % 10 ^ (e' + 1) : Nat) : Int) =
          (((m.natAbs / 10 ^ (e' + 1)) * 10 ^ (e' + 1) + m.natAbs % 10 ^ (e' + 1) : Nat) : Int)
        from by push_cast; ring]
      rw [Nat.div_add_mod']
    rw [harith, Int.natAbs_of_nonneg hm]
    show Dec.abs (normDec m (e' + 1)) = ⟨m, e' + 1⟩
    unfold normDec
    rw [if_neg hmod]
    unfold Dec.abs
    dsimp only
    rw [abs_of_nonneg hm]

/-- C7: `parse_amount` is idempotent through its canonical output format:
for every input string, rendering the parsed result in the canonical
Chilean textual form (`renderAmount`, modelled from the spec) and parsing
it again yields exactly the first parse's magnitude. -/
theorem C7_parse_amount_render_idempotent (s : String) :
    parse_amount (renderAmount (parse_amount s)) = parse_amount s :=
  renderRoundtrip (parse_amount s) (parseAmountNonneg s) (parseAmountNormalized s)
